import Mathlib

/-!
# BMP image processor: codec and transforms

A shallow embedding of `Main.cpp` (24-bit BMP reader, four in-memory pixel
transforms, BMP writer) together with theorems about it.

Conventions of the embedding

* `uint8_t` is `Fin 256`; wider machine integers are `Nat`/`Int` with the
  conversions written out (`% 2 ^ 32`, `% 2 ^ 64`).  `size_t` is 64 bits wide.
* `std::vector` is `List`; `v[i]` past the end, signed `int` overflow and a
  `read` past the end of a buffer are undefined behaviour in C++ and are
  reported as a `Fault`, as is the `std::length_error` a vector raises when it
  is given a negative element count.
* The structs are `#pragma pack(1)` and are read and written as raw memory, so
  their object representation is the little-endian field-by-field byte string
  (the host is assumed little-endian, as the signature constant `0x4d42` for
  the bytes `'B' 'M'` presupposes).
* A `std::ifstream` is its contents, its get position and its `eofbit` and
  `failbit`; the output file of `writeFile` is the byte string written to it
  (opening the output file is assumed to succeed), and `writeFileOutcome`
  also tells whether the file exists after the call.
* The `int` loop counters are not bounded: every grid the program holds comes
  from `getPixelArray`, whose row count and width are `int32_t` header fields,
  so a counter that runs up to a vector's size stays representable.
* `float` arithmetic is IEEE-754 binary32 with round-to-nearest-even, each
  operation rounded on its own (section "Single-precision arithmetic").
-/

namespace BMP

/-! ## Machine integers -/

/-- An 8-bit unsigned value (`uint8_t`). -/
abbrev Byte := Fin 256

/-- Conversion of a non-negative integer to `uint8_t`. -/
def toUInt8 (n : Nat) : Byte := ⟨n % 256, Nat.mod_lt n (by decide)⟩

/-- Conversion of an integer to `uint32_t`. -/
def toUInt32 (z : Int) : Nat := (z % 2 ^ 32).toNat

/-- Conversion of an integer to `int32_t` (two's complement). -/
def toInt32 (z : Int) : Int :=
  if z % 2 ^ 32 < 2 ^ 31 then z % 2 ^ 32 else z % 2 ^ 32 - 2 ^ 32

/-- Conversion of a non-negative integer to `size_t`. -/
def toSizeT (n : Nat) : Nat := n % 2 ^ 64

/-- The ways the C++ program can leave defined behaviour or throw. -/
inductive Fault where
  /-- Signed `int` arithmetic whose result does not fit in 32 bits. -/
  | signedOverflow
  /-- A vector sized with a negative count (converted to a huge `size_t`). -/
  | lengthError
  /-- A block read or write that runs past the end of a vector's storage. -/
  | bufferOverrun
  /-- The subscript of `operator[]` is not below `size()`. -/
  | outOfRange
deriving DecidableEq

deriving instance DecidableEq for Except

/-- The result of an `int` operation: the value when it is representable. -/
def checkedInt (z : Int) : Except Fault Int :=
  if -(2 ^ 31) ≤ z ∧ z < 2 ^ 31 then .ok z else .error .signedOverflow

/-! ## Data model -/

/-- One pixel, stored blue, green, red (3 bytes, packed). -/
structure OPAQUE_COLOR_24_PIXEL where
  b : Byte
  g : Byte
  r : Byte
deriving DecidableEq

/-- A row of pixels. -/
abbrev PixelRow := List OPAQUE_COLOR_24_PIXEL

/-- The pixel grid `std::vector<std::vector<OPAQUE_COLOR_24_PIXEL>>`. -/
abbrev PixelArray := List PixelRow

/-- The 14-byte file header. -/
structure BITMAP_FILE_HEADER where
  HEADER_FIELD : Nat
  BMP_FILE_SIZE : Nat
  BMP_RESERVED_1 : Nat := 0
  BMP_RESERVED_2 : Nat := 0
  BMP_OFFSET : Nat
deriving DecidableEq

/-- The 40-byte info header. -/
structure BITMAP_INFO_HEADER where
  INFO_HEADER_SIZE : Nat
  BMP_WIDTH : Int
  BMP_HEIGHT : Int
  BMP_PLANES : Nat := 1
  BMP_BIT_COUNT : Nat
  BMP_COMPRESSION : Nat := 0
  BMP_SIZE_IMAGE : Nat
  BMP_XPIXELS_PER_METER : Int := 0
  BMP_YPIXELS_PER_METER : Int := 0
  BMP_CLR_USED : Nat := 0
  BMP_CLR_IMPORTANT : Nat := 0
deriving DecidableEq

def BITMAP_FILE_HEADER_SIZE : Nat := 14

def BMP_INFO_HEADER_SIZE : Nat := 40

def BMP_FILE_SIGNATURE : Nat := 0x4d42

/-! ## Object representation of the packed structs -/

/-- The two bytes of a `uint16_t`, least significant first. -/
def le16 (n : Nat) : List Byte := [toUInt8 n, toUInt8 (n / 2 ^ 8)]

/-- The four bytes of a `uint32_t`, least significant first. -/
def le32 (n : Nat) : List Byte :=
  [toUInt8 n, toUInt8 (n / 2 ^ 8), toUInt8 (n / 2 ^ 16), toUInt8 (n / 2 ^ 24)]

/-- The unsigned value of a little-endian byte string. -/
def fromLE : List Byte → Nat
  | [] => 0
  | b :: bs => b.val + 256 * fromLE bs

/-- The unsigned value of the `n` bytes that start at offset `off`. -/
def fieldAt (bs : List Byte) (off n : Nat) : Nat := fromLE ((bs.drop off).take n)

/-- The bytes of a pixel in memory order: blue, green, red. -/
def pixelBytes (p : OPAQUE_COLOR_24_PIXEL) : List Byte := [p.b, p.g, p.r]

/-- The storage of a pixel vector as bytes. -/
def rowBytes (row : PixelRow) : List Byte := row.flatMap pixelBytes

/-- The pixels held by a byte buffer whose length is a multiple of 3. -/
def pixelsOfBytes : List Byte → PixelRow
  | b :: g :: r :: rest => ⟨b, g, r⟩ :: pixelsOfBytes rest
  | _ => []

/-- The 14 bytes of a file header in memory. -/
def fileHeaderBytes (h : BITMAP_FILE_HEADER) : List Byte :=
  le16 h.HEADER_FIELD ++ le32 h.BMP_FILE_SIZE ++ le16 h.BMP_RESERVED_1 ++
    le16 h.BMP_RESERVED_2 ++ le32 h.BMP_OFFSET

/-- The file header held by 14 bytes of memory. -/
def fileHeaderOfBytes (bs : List Byte) : BITMAP_FILE_HEADER :=
  { HEADER_FIELD := fieldAt bs 0 2
    BMP_FILE_SIZE := fieldAt bs 2 4
    BMP_RESERVED_1 := fieldAt bs 6 2
    BMP_RESERVED_2 := fieldAt bs 8 2
    BMP_OFFSET := fieldAt bs 10 4 }

/-- The 40 bytes of an info header in memory. -/
def infoHeaderBytes (h : BITMAP_INFO_HEADER) : List Byte :=
  le32 h.INFO_HEADER_SIZE ++ le32 (toUInt32 h.BMP_WIDTH) ++ le32 (toUInt32 h.BMP_HEIGHT) ++
    le16 h.BMP_PLANES ++ le16 h.BMP_BIT_COUNT ++ le32 h.BMP_COMPRESSION ++
    le32 h.BMP_SIZE_IMAGE ++ le32 (toUInt32 h.BMP_XPIXELS_PER_METER) ++
    le32 (toUInt32 h.BMP_YPIXELS_PER_METER) ++ le32 h.BMP_CLR_USED ++
    le32 h.BMP_CLR_IMPORTANT

/-- The info header held by 40 bytes of memory. -/
def infoHeaderOfBytes (bs : List Byte) : BITMAP_INFO_HEADER :=
  { INFO_HEADER_SIZE := fieldAt bs 0 4
    BMP_WIDTH := toInt32 (fieldAt bs 4 4)
    BMP_HEIGHT := toInt32 (fieldAt bs 8 4)
    BMP_PLANES := fieldAt bs 12 2
    BMP_BIT_COUNT := fieldAt bs 14 2
    BMP_COMPRESSION := fieldAt bs 16 4
    BMP_SIZE_IMAGE := fieldAt bs 20 4
    BMP_XPIXELS_PER_METER := toInt32 (fieldAt bs 24 4)
    BMP_YPIXELS_PER_METER := toInt32 (fieldAt bs 28 4)
    BMP_CLR_USED := fieldAt bs 32 4
    BMP_CLR_IMPORTANT := fieldAt bs 36 4 }

/-- Memory `buf` after `got` has been stored at its start. -/
def overwrite (buf got : List Byte) : List Byte := got ++ buf.drop got.length

/-! ## The input stream -/

/-- A `std::ifstream` opened in binary mode on a file with the given content. -/
structure IFStream where
  content : List Byte
  pos : Nat := 0
  eofbit : Bool := false
  failbit : Bool := false
deriving DecidableEq

namespace IFStream

/-- The call `seekg(off, std::ios::beg)` with `off ≥ 0`: clears `eofbit`, then
moves the get position unless the stream has failed.  Seeking past the end of
the file succeeds. -/
def seekg (s : IFStream) (off : Nat) : IFStream :=
  if s.failbit then { s with eofbit := false } else { s with eofbit := false, pos := off }

/-- The call `read(buf, n)`: the stream afterwards and the bytes stored.  On a
stream that is not `good()` nothing is read and `failbit` is set; when fewer
than `n` bytes are left they are all stored and `eofbit` and `failbit` are set. -/
def read (s : IFStream) (n : Nat) : IFStream × List Byte :=
  if s.eofbit || s.failbit then ({ s with failbit := true }, [])
  else
    let got := (s.content.drop s.pos).take n
    if got.length < n then
      ({ s with pos := s.pos + got.length, eofbit := true, failbit := true }, got)
    else ({ s with pos := s.pos + n }, got)

end IFStream

/-! ## Parsing -/

/-- The function `getBMPFileHeader`: the 14 bytes at offset 0 are stored over
the header struct. -/
def getBMPFileHeader (BMP_file : IFStream) (f_header : BITMAP_FILE_HEADER) :
    IFStream × BITMAP_FILE_HEADER :=
  let r := (BMP_file.seekg 0).read 14
  (r.1, fileHeaderOfBytes (overwrite (fileHeaderBytes f_header) r.2))

/-- The function `getBMPInfoHeader`: the 40 bytes at offset 14 are stored over
the header struct. -/
def getBMPInfoHeader (BMP_file : IFStream) (inf_header : BITMAP_INFO_HEADER) :
    IFStream × BITMAP_INFO_HEADER :=
  let r := (BMP_file.seekg BITMAP_FILE_HEADER_SIZE).read 40
  (r.1, infoHeaderOfBytes (overwrite (infoHeaderBytes inf_header) r.2))

/-- The variable `rowSize` of `getPixelArray`:
`static_cast<int>(ceil(BMP_BIT_COUNT * BMP_WIDTH / 32)) * 4`.  Both operands
are `int`s, so `/` is the truncating integer division and `ceil` is applied to
a whole number, which it leaves alone. -/
def rowSize (bitCount : Nat) (width : Int) : Except Fault Int := do
  let bits ← checkedInt ((bitCount : Int) * width)
  pure (Int.tdiv bits 32 * 4)

/-- One iteration of the loop of `getPixelArray`, for row `i`: resize the row
to `imgWidth` zeroed pixels, seek to `pixelArrayBeginIndex + rowSize * i`
(a `uint32_t` sum) and read `imgWidth * bytesPerPixel` bytes into the row. -/
def readRow (pixelArrayBeginIndex : Nat) (rowSize imgWidth bytesPerPixel : Int)
    (file : IFStream) (i : Nat) : Except Fault (IFStream × PixelRow) := do
  if imgWidth < 0 then throw Fault.lengthError
  let skip ← checkedInt (rowSize * (i : Int))
  let file := file.seekg ((pixelArrayBeginIndex + toUInt32 skip) % 2 ^ 32)
  let count ← checkedInt (imgWidth * bytesPerPixel)
  let r := file.read count.toNat
  let storage : List Byte := List.replicate (3 * imgWidth.toNat) 0
  if storage.length < r.2.length then throw Fault.bufferOverrun
  pure (r.1, pixelsOfBytes (overwrite storage r.2))

/-- The loop of `getPixelArray`: rows `i`, `i + 1`, ..., `i + n - 1`. -/
def readRows (pixelArrayBeginIndex : Nat) (rowSize imgWidth bytesPerPixel : Int) :
    Nat → Nat → IFStream → Except Fault (IFStream × PixelArray)
  | 0, _, file => pure (file, [])
  | n + 1, i, file => do
    let r ← readRow pixelArrayBeginIndex rowSize imgWidth bytesPerPixel file i
    let rs ← readRows pixelArrayBeginIndex rowSize imgWidth bytesPerPixel n (i + 1) r.1
    pure (rs.1, r.2 :: rs.2)

/-- The function `getPixelArray`: the stream afterwards and the grid. -/
def getPixelArray (file : IFStream) (fileHeader : BITMAP_FILE_HEADER)
    (infoHeader : BITMAP_INFO_HEADER) : Except Fault (IFStream × PixelArray) := do
  let rowSize ← rowSize infoHeader.BMP_BIT_COUNT infoHeader.BMP_WIDTH
  let imgHeight := infoHeader.BMP_HEIGHT
  let imgWidth := infoHeader.BMP_WIDTH
  let bytesPerPixel : Int := ((infoHeader.BMP_BIT_COUNT / 8 : Nat) : Int)
  let pixelArrayBeginIndex := fileHeader.BMP_OFFSET
  if imgHeight < 0 then throw Fault.lengthError
  readRows pixelArrayBeginIndex rowSize imgWidth bytesPerPixel imgHeight.toNat 0 file

/-! ## Writing -/

/-- The variable `padded_row_size` of `writeFile`:
`(unpadded_row_size + 3) & (~3)` in `size_t` arithmetic, where `~3`, the
`int` -4, converts to `2 ^ 64 - 4`. -/
def paddedRowSize (unpadded_row_size : Nat) : Nat :=
  toSizeT (unpadded_row_size + 3) &&& (2 ^ 64 - 4)

/-- The two headers `writeFile` fills in for a grid whose row 0 has
`img_width` pixels and which has `img_height` rows.  Fields that are not
assigned keep their default member initialisers. -/
def newHeaders (img_width img_height : Nat) : BITMAP_FILE_HEADER × BITMAP_INFO_HEADER :=
  let bytes_per_pixel : Nat := 3
  let unpadded_row_size := toSizeT (img_width * bytes_per_pixel)
  let padded_row_size := paddedRowSize unpadded_row_size
  let img_size := toSizeT (padded_row_size * img_height)
  let newfileheader : BITMAP_FILE_HEADER :=
    { HEADER_FIELD := BMP_FILE_SIGNATURE
      BMP_FILE_SIZE := toUInt32 (toSizeT (14 + 40 + img_size))
      BMP_OFFSET := 14 + 40 }
  let newinfoheader : BITMAP_INFO_HEADER :=
    { INFO_HEADER_SIZE := 40
      BMP_WIDTH := toInt32 img_width
      BMP_HEIGHT := toInt32 img_height
      BMP_BIT_COUNT := bytes_per_pixel * 8
      BMP_SIZE_IMAGE := toUInt32 img_size }
  (newfileheader, newinfoheader)

/-- The bytes one iteration of the write loop emits for `row`: the first
`unpadded_row_size` bytes of the row's storage, then the padding vector. -/
def writeRow (unpadded_row_size : Nat) (padding : List Byte) (row : PixelRow) :
    Except Fault (List Byte) :=
  if (rowBytes row).length < unpadded_row_size then .error Fault.bufferOverrun
  else .ok ((rowBytes row).take unpadded_row_size ++ padding)

/-- The write loop of `writeFile` over the rows in index order. -/
def writeRows (unpadded_row_size : Nat) (padding : List Byte) :
    PixelArray → Except Fault (List Byte)
  | [] => pure []
  | row :: rows => do
    let out ← writeRow unpadded_row_size padding row
    let rest ← writeRows unpadded_row_size padding rows
    pure (out ++ rest)

/-- The function `writeFile`: the content of the file it writes.  The width is
taken from `pixelArray[0]`, which a grid without rows does not have; the
output stream is opened before that access, so a fault leaves the file the
constructor created, with nothing written to it. -/
def writeFile (pixelArray : PixelArray) : Except Fault (List Byte) :=
  match pixelArray[0]? with
  | none => .error Fault.outOfRange
  | some row0 => do
    let bytes_per_pixel : Nat := 3
    let img_width := row0.length
    let img_height := pixelArray.length
    let unpadded_row_size := toSizeT (img_width * bytes_per_pixel)
    let padded_row_size := paddedRowSize unpadded_row_size
    let headers := newHeaders img_width img_height
    let padding : List Byte :=
      List.replicate (toSizeT (padded_row_size + 2 ^ 64 - unpadded_row_size)) 0
    let rows ← writeRows unpadded_row_size padding pixelArray
    pure (fileHeaderBytes headers.1 ++ infoHeaderBytes headers.2 ++ rows)

/-- The output file as the file system shows it: `none` while no file of that
name exists, `some content` once it does. -/
abbrev OutFile := Option (List Byte)

/-- The write loop of `writeFile`, one `outfile.write` after the other: the
bytes handed to the stream before the loop ended, and the fault that ended
it, if any. -/
def writeRowsOutcome (unpadded_row_size : Nat) (padding : List Byte) :
    PixelArray → List Byte × Option Fault
  | [] => ([], none)
  | row :: rows =>
    match writeRow unpadded_row_size padding row with
    | .error f => ([], some f)
    | .ok out =>
      let rest := writeRowsOutcome unpadded_row_size padding rows
      (out ++ rest.1, rest.2)

/-- The function `writeFile` with its effect on the file system: the output
file after the call, and the fault that ended the call, if any.  The first
statement, the constructor of `outfile`, creates the file (or empties the one
that exists); only then is `pixelArray[0]` evaluated, so the fault on a grid
without rows leaves the file behind with nothing in it.  The headers are
handed to the stream before the loop starts, each row when its turn comes;
after a fault in the loop the content given is what had been handed to the
stream by then. -/
def writeFileOutcome (pixelArray : PixelArray) : OutFile × Option Fault :=
  let outfile : List Byte := []
  match pixelArray[0]? with
  | none => (some outfile, some Fault.outOfRange)
  | some row0 =>
    let bytes_per_pixel : Nat := 3
    let img_width := row0.length
    let img_height := pixelArray.length
    let unpadded_row_size := toSizeT (img_width * bytes_per_pixel)
    let padded_row_size := paddedRowSize unpadded_row_size
    let headers := newHeaders img_width img_height
    let outfile := outfile ++ fileHeaderBytes headers.1
    let outfile := outfile ++ infoHeaderBytes headers.2
    let padding : List Byte :=
      List.replicate (toSizeT (padded_row_size + 2 ^ 64 - unpadded_row_size)) 0
    let rows := writeRowsOutcome unpadded_row_size padding pixelArray
    (some (outfile ++ rows.1), rows.2)

/-! ## Opening a file (the validation loop of `main`) -/

/-- The two rejections of the validation loop, named as in the specification:
`InvalidSignature` is the branch that prints "Invalid file signature. Try
again." and `UnsupportedFormat` the branch that prints "Application only
supports uncompressed 24-bit pixel BMP images. Try again.". -/
inductive ValidationError where
  | InvalidSignature
  | UnsupportedFormat
deriving DecidableEq

/-- The `if` chain of `main` on the two parsed headers: `none` is the branch
that sets `validated = true`. -/
def validate (fileHeader : BITMAP_FILE_HEADER) (infoHeader : BITMAP_INFO_HEADER) :
    Option ValidationError :=
  if fileHeader.HEADER_FIELD ≠ BMP_FILE_SIGNATURE then some .InvalidSignature
  else if infoHeader.INFO_HEADER_SIZE ≠ 40 then some .UnsupportedFormat
  else none

/-- What the session holds after the validation loop. -/
structure Loaded where
  inFile : IFStream
  fileHeader : BITMAP_FILE_HEADER
  infoHeader : BITMAP_INFO_HEADER
deriving DecidableEq

/-- The validation loop of `main`, run on the files the entered paths name in
turn (`none`: the path cannot be opened).  Each file that opens is parsed into
the two header variables, which persist from one attempt to the next; the loop
ends at the first file `validate` accepts.  The result is `none` when the
entered paths run out before a file is accepted. -/
def validationLoop (fileHeader : BITMAP_FILE_HEADER) (infoHeader : BITMAP_INFO_HEADER) :
    List (Option (List Byte)) → Option Loaded
  | [] => none
  | none :: paths => validationLoop fileHeader infoHeader paths
  | some content :: paths =>
    let f := getBMPFileHeader { content := content } fileHeader
    let g := getBMPInfoHeader f.1 infoHeader
    match validate f.2 g.2 with
    | some _ => validationLoop f.2 g.2 paths
    | none => some { inFile := g.1, fileHeader := f.2, infoHeader := g.2 }

/-- The start of a session of `main`: the validation loop, then
`getPixelArray` on the accepted file.  The grid is `none` when no file is
accepted, so that nothing is decoded. -/
def loadImage (fileHeader : BITMAP_FILE_HEADER) (infoHeader : BITMAP_INFO_HEADER)
    (paths : List (Option (List Byte))) : Option (Except Fault PixelArray) :=
  match validationLoop fileHeader infoHeader paths with
  | none => none
  | some l => some ((getPixelArray l.inFile l.fileHeader l.infoHeader).map Prod.snd)

/-- Decoding a file from its bytes: parse the two headers, then
`getPixelArray` with those headers. -/
def decodeFile (content : List Byte) (fileHeader : BITMAP_FILE_HEADER)
    (infoHeader : BITMAP_INFO_HEADER) : Except Fault PixelArray :=
  let f := getBMPFileHeader { content := content } fileHeader
  let g := getBMPInfoHeader f.1 infoHeader
  (getPixelArray g.1 f.2 g.2).map Prod.snd

/-! ## Single-precision arithmetic

The luma expression of `grayscale` is evaluated in `float`.  A finite `float`
is modelled by the rational number it denotes, and every operation returns the
IEEE-754 binary32 value nearest to the exact result, ties to even (the default
rounding mode; each product and each sum is rounded on its own, with no fused
multiply-add).  Magnitudes stay below `2 ^ 10`, so overflow does not arise. -/

namespace F32

/-- The integer nearest to `x`, a tie going to the even neighbour. -/
def roundHalfEven (x : ℚ) : ℤ :=
  let n := ⌊x⌋
  let f := x - n
  if f < 1 / 2 then n else if 1 / 2 < f then n + 1 else if n % 2 = 0 then n else n + 1

/-- The number of halvings that take `n` below 2, which is `⌊log₂ n⌋` for
`n ≥ 1`; at most `fuel` halvings are made, and `fuel = n` is always enough. -/
def halvings : Nat → Nat → Nat
  | 0, _ => 0
  | fuel + 1, n => if n < 2 then 0 else halvings fuel (n / 2) + 1

/-- The binary exponent of `q > 0`: the integer `e` with `2 ^ e ≤ q < 2 ^ (e + 1)`. -/
def exponent (q : ℚ) : ℤ :=
  if 1 ≤ q then (halvings ⌊q⌋₊ ⌊q⌋₊ : ℤ)
  else
    let k := halvings ⌊q⁻¹⌋₊ ⌊q⁻¹⌋₊
    if q * 2 ^ k = 1 then -(k : ℤ) else -(k : ℤ) - 1

/-- The binary32 value nearest to `q`: 24 significant bits, least exponent -126. -/
def round (q : ℚ) : ℚ :=
  if q = 0 then 0
  else
    let e : ℤ := max (exponent |q|) (-126)
    let ulp : ℚ := (2 : ℚ) ^ (e - 23)
    roundHalfEven (q / ulp) * ulp

/-- Product of two `float`s. -/
def mul (x y : ℚ) : ℚ := round (x * y)

/-- Sum of two `float`s. -/
def add (x y : ℚ) : ℚ := round (x + y)

/-- The conversion of an `int` to `float` (exact up to 24 bits). -/
def ofInt (n : Int) : ℚ := round n

/-- The function `std::clamp(v, lo, hi)`. -/
def clamp (v lo hi : ℚ) : ℚ := if v < lo then lo else if hi < v then hi else v

/-- The conversion `static_cast<uint8_t>(v)` of a `float` in `[0, 256)`:
the fractional part is discarded. -/
def toUInt8 (v : ℚ) : Byte := BMP.toUInt8 ⌊v⌋.toNat

end F32

/-! ## Transforms -/

/-- The body of the inner loop of `grayscale`:
`gray = static_cast<uint8_t>(std::clamp(p.r * 2.999f + p.g * 0.587f + p.b * 0.114f, 0.0f, 255.0f))`,
then `p.r = p.g = p.b = gray`. -/
def grayPixel (p : OPAQUE_COLOR_24_PIXEL) : OPAQUE_COLOR_24_PIXEL :=
  let gray : Byte :=
    F32.toUInt8
      (F32.clamp
        (F32.add
          (F32.add (F32.mul (F32.ofInt p.r.val) (F32.round (2999 / 1000)))
            (F32.mul (F32.ofInt p.g.val) (F32.round (587 / 1000))))
          (F32.mul (F32.ofInt p.b.val) (F32.round (114 / 1000))))
        (F32.round 0) (F32.round 255))
  { b := gray, g := gray, r := gray }

/-- The function `grayscale`: every pixel of every row is replaced in place. -/
def grayscale (pixelArray : PixelArray) : PixelArray :=
  pixelArray.map (fun row => row.map grayPixel)

/-- The body of the inner loop of `invert`; `255 - c` is computed in `int` and
stored back into the `uint8_t` channel. -/
def invertPixel (p : OPAQUE_COLOR_24_PIXEL) : OPAQUE_COLOR_24_PIXEL :=
  { b := toUInt8 (255 - p.b.val), g := toUInt8 (255 - p.g.val), r := toUInt8 (255 - p.r.val) }

/-- The function `invert`. -/
def invert (pixelArray : PixelArray) : PixelArray :=
  pixelArray.map (fun row => row.map invertPixel)

/-- The call `std::swap(v[i], v[j])`.  The swap loop only makes it with both
subscripts below `size()` (`swapLoop_prefix`); for a subscript past the end,
which C++ leaves undefined, the vector is returned as it is. -/
def swapAt {α : Type} (v : List α) (i j : Nat) : List α :=
  match v[i]?, v[j]? with
  | some x, some y => (v.set i y).set j x
  | _, _ => v

/-- The loop `for (int i = 0; i < v.size() / 2; ++i) std::swap(v[i], v[v.size() - i - 1]);`
shared by the two flips.  A swap does not change `size()`, so the bound is the
one computed on entry. -/
def swapLoop {α : Type} (v : List α) : List α :=
  (List.range (v.length / 2)).foldl (fun acc i => swapAt acc i (acc.length - i - 1)) v

/-- The function `verticalFlip`: the swap loop on the vector of rows. -/
def verticalFlip (pixelArray : PixelArray) : PixelArray := swapLoop pixelArray

/-- The function `horizonalFlip`: the swap loop on every row. -/
def horizonalFlip (pixelArray : PixelArray) : PixelArray :=
  pixelArray.map (fun row => swapLoop row)

/-- The element `pixelArray[i][j]`, when both subscripts are in range. -/
def pixelAt (pixelArray : PixelArray) (i j : Nat) : Option OPAQUE_COLOR_24_PIXEL :=
  pixelArray[i]?.bind (fun row => row[j]?)

/-- The call `std::swap(v[i], v[j])` with the subscripts checked: a subscript
that is not below `size()` is reported instead of being left undefined. -/
def swapAtChecked {α : Type} (v : List α) (i j : Nat) : Except Fault (List α) :=
  match v[i]?, v[j]? with
  | some x, some y => .ok ((v.set i y).set j x)
  | _, _ => .error Fault.outOfRange

/-- The swap loop of the two flips with every subscript checked. -/
def swapLoopChecked {α : Type} (v : List α) : Except Fault (List α) :=
  (List.range (v.length / 2)).foldlM (fun acc i => swapAtChecked acc i (acc.length - i - 1)) v

/-- The function `verticalFlip` with every subscript checked. -/
def verticalFlipChecked (pixelArray : PixelArray) : Except Fault PixelArray :=
  swapLoopChecked pixelArray

/-- The function `horizonalFlip` with every subscript checked. -/
def horizonalFlipChecked : PixelArray → Except Fault PixelArray
  | [] => pure []
  | row :: rows => do
    let r ← swapLoopChecked row
    let rs ← horizonalFlipChecked rows
    pure (r :: rs)

/-! ## Lemmas on the swap loop -/

theorem length_swapAt {α : Type} (v : List α) (i j : Nat) :
    (swapAt v i j).length = v.length := by
  unfold swapAt
  split <;> simp

theorem getElem?_swapAt {α : Type} (v : List α) (i j m : Nat) (hi : i < v.length)
    (hj : j < v.length) :
    (swapAt v i j)[m]? = if m = j then v[i]? else if m = i then v[j]? else v[m]? := by
  unfold swapAt
  rw [List.getElem?_eq_getElem hi, List.getElem?_eq_getElem hj]
  simp only [List.getElem?_set, List.length_set]
  by_cases h1 : m = j
  · subst h1; simp [hi, hj]
  · by_cases h2 : m = i
    · subst h2
      rw [if_neg (Ne.symm h1), if_pos rfl, if_pos hi, if_neg h1, if_pos rfl]
    · rw [if_neg (Ne.symm h1), if_neg (Ne.symm h2), if_neg h1, if_neg h2]

/-- The state of the swap loop after `k` iterations: the outer `k` positions on
each side hold the mirrored elements, the middle is untouched. -/
theorem swapLoop_prefix {α : Type} (v : List α) (k : Nat) (hk : k ≤ v.length / 2) :
    ((List.range k).foldl (fun acc i => swapAt acc i (acc.length - i - 1)) v).length = v.length ∧
    ∀ m, ((List.range k).foldl (fun acc i => swapAt acc i (acc.length - i - 1)) v)[m]? =
      if m < k ∨ (v.length - k ≤ m ∧ m < v.length) then v[v.length - 1 - m]? else v[m]? := by
  induction k with
  | zero =>
    refine ⟨rfl, fun m => ?_⟩
    have : ¬ (m < 0 ∨ (v.length - 0 ≤ m ∧ m < v.length)) := by omega
    rw [if_neg this]
    rfl
  | succ k ih =>
    obtain ⟨hlen, hget⟩ := ih (by omega)
    rw [List.range_succ, List.foldl_append]
    simp only [List.foldl_cons, List.foldl_nil]
    refine ⟨by rw [length_swapAt, hlen], fun m => ?_⟩
    rw [getElem?_swapAt _ _ _ _ (by omega) (by omega), hlen, hget, hget, hget]
    by_cases h1 : m = v.length - k - 1
    · subst h1
      have e1 : ¬ (k < k ∨ (v.length - k ≤ k ∧ k < v.length)) := by omega
      have e2 : (v.length - k - 1 < k + 1 ∨
          (v.length - (k + 1) ≤ v.length - k - 1 ∧ v.length - k - 1 < v.length)) := by omega
      have e3 : v.length - 1 - (v.length - k - 1) = k := by omega
      rw [if_pos rfl, if_neg e1, if_pos e2, e3]
    · by_cases h2 : m = k
      · subst h2
        have e1 : ¬ (v.length - m - 1 < m ∨
            (v.length - m ≤ v.length - m - 1 ∧ v.length - m - 1 < v.length)) := by omega
        have e2 : (m < m + 1 ∨ (v.length - (m + 1) ≤ m ∧ m < v.length)) := by omega
        have e3 : v.length - 1 - m = v.length - m - 1 := by omega
        rw [if_neg h1, if_pos rfl, if_neg e1, if_pos e2, e3]
      · rw [if_neg h1, if_neg h2]
        by_cases h3 : m < k ∨ (v.length - k ≤ m ∧ m < v.length)
        · have e2 : (m < k + 1 ∨ (v.length - (k + 1) ≤ m ∧ m < v.length)) := by omega
          rw [if_pos h3, if_pos e2]
        · have e2 : ¬ (m < k + 1 ∨ (v.length - (k + 1) ≤ m ∧ m < v.length)) := by omega
          rw [if_neg h3, if_neg e2]

/-- The swap loop reverses the vector. -/
theorem swapLoop_eq_reverse {α : Type} (v : List α) : swapLoop v = v.reverse := by
  obtain ⟨_, hget⟩ := swapLoop_prefix v (v.length / 2) (le_refl _)
  apply List.ext_getElem?
  intro m
  unfold swapLoop
  rw [hget]
  by_cases hm : m < v.length
  · rw [List.getElem?_reverse hm]
    by_cases h3 : m < v.length / 2 ∨ (v.length - v.length / 2 ≤ m ∧ m < v.length)
    · rw [if_pos h3]
    · have : v.length - 1 - m = m := by omega
      rw [if_neg h3, this]
  · have h3 : ¬ (m < v.length / 2 ∨ (v.length - v.length / 2 ≤ m ∧ m < v.length)) := by omega
    rw [if_neg h3, List.getElem?_eq_none (by omega),
      List.getElem?_eq_none (by rw [List.length_reverse]; omega)]

/-! ## Transform laws -/

theorem verticalFlip_eq_reverse (g : PixelArray) : verticalFlip g = g.reverse :=
  swapLoop_eq_reverse g

theorem horizonalFlip_eq_map_reverse (g : PixelArray) :
    horizonalFlip g = g.map List.reverse := by
  unfold horizonalFlip
  exact List.map_congr_left (fun row _ => swapLoop_eq_reverse row)

theorem toUInt8_complement (c : Byte) : toUInt8 (255 - (toUInt8 (255 - c.val)).val) = c := by
  apply Fin.ext
  have := c.isLt
  simp only [toUInt8]
  omega

theorem invertPixel_invertPixel (p : OPAQUE_COLOR_24_PIXEL) :
    invertPixel (invertPixel p) = p := by
  cases p
  simp [invertPixel, toUInt8_complement]

theorem pixelAt_flips (g : PixelArray) (W : Nat) (hrect : ∀ row ∈ g, row.length = W)
    (i j : Nat) (hi : i < g.length) (hj : j < W) :
    pixelAt (horizonalFlip (verticalFlip g)) i j = pixelAt g (g.length - 1 - i) (W - 1 - j) := by
  unfold pixelAt
  rw [horizonalFlip_eq_map_reverse, verticalFlip_eq_reverse, List.getElem?_map,
    List.getElem?_reverse hi]
  have hi2 : g.length - 1 - i < g.length := by omega
  rw [List.getElem?_eq_getElem hi2]
  have hlen : (g[g.length - 1 - i]).length = W := hrect _ (List.getElem_mem _)
  simp only [Option.map_some', Option.some_bind]
  rw [List.getElem?_reverse (by omega), hlen]

/-! ## Writing: sizes, headers and pixel layout -/

/-- Clearing the two low bits of a 64-bit value rounds it down to a multiple of 4. -/
theorem land_mask (x : Nat) (hx : x < 2 ^ 64) : x &&& (2 ^ 64 - 4) = x / 4 * 4 := by
  apply Nat.eq_of_testBit_eq
  intro i
  have h4 : (2 ^ 64 - 4 : Nat) = 2 ^ 64 - (3 + 1) := by norm_num
  have h3 : (3 : Nat) = 2 ^ 2 - 1 := by norm_num
  rw [Nat.testBit_land, h4, Nat.testBit_two_pow_sub_succ (by norm_num), h3,
    Nat.testBit_two_pow_sub_one]
  have e : x / 4 * 4 = (x >>> 2) <<< 2 := by
    rw [Nat.shiftLeft_eq, Nat.shiftRight_eq_div_pow]
  rw [e, Nat.testBit_shiftLeft, Nat.testBit_shiftRight]
  by_cases h2 : i < 2
  · simp [h2]
  · have h2' : 2 ≤ i := by omega
    have e2 : 2 + (i - 2) = i := by omega
    by_cases h64 : i < 64
    · simp [h2, h2', h64, e2]
    · have : x.testBit i = false := by
        apply Nat.testBit_lt_two_pow
        calc x < 2 ^ 64 := hx
          _ ≤ 2 ^ i := Nat.pow_le_pow_right (by norm_num) (by omega)
      simp [this, e2]

/-- The padded row size is the unpadded size rounded up to a multiple of 4. -/
theorem paddedRowSize_eq (n : Nat) (hn : n + 3 < 2 ^ 64) :
    paddedRowSize n = (n + 3) / 4 * 4 := by
  unfold paddedRowSize toSizeT
  rw [Nat.mod_eq_of_lt hn, land_mask _ hn]

theorem length_rowBytes (row : PixelRow) : (rowBytes row).length = 3 * row.length := by
  induction row with
  | nil => rfl
  | cons p ps ih =>
    simp only [rowBytes, List.flatMap_cons, List.length_append, List.length_cons] at ih ⊢
    simp only [pixelBytes, List.length_cons, List.length_nil]
    omega

/-- The write loop on rows that all have the width the sizes were computed from. -/
theorem writeRows_rect (W : Nat) (padding : List Byte) (g : PixelArray)
    (hrect : ∀ row ∈ g, row.length = W) :
    writeRows (3 * W) padding g = .ok (g.flatMap (fun row => rowBytes row ++ padding)) := by
  induction g with
  | nil => rfl
  | cons row rows ih =>
    have hrow : row.length = W := hrect row (List.mem_cons_self _ _)
    have hlen : (rowBytes row).length = 3 * W := by rw [length_rowBytes, hrow]
    have hw : writeRow (3 * W) padding row = .ok (rowBytes row ++ padding) := by
      unfold writeRow
      rw [if_neg (by omega), ← hlen, List.take_length]
    simp only [writeRows, hw, ih (fun r hr => hrect r (List.mem_cons_of_mem _ hr))]
    rfl

/-- The file `writeFile` produces for a non-empty rectangular grid. -/
theorem writeFile_rect (g : PixelArray) (W : Nat) (hrect : ∀ row ∈ g, row.length = W)
    (hH : 1 ≤ g.length) (hW : 3 * W + 3 < 2 ^ 64) :
    writeFile g = .ok (fileHeaderBytes (newHeaders W g.length).1 ++
      infoHeaderBytes (newHeaders W g.length).2 ++
      g.flatMap (fun row => rowBytes row ++
        List.replicate ((3 * W + 3) / 4 * 4 - 3 * W) (0 : Byte))) := by
  cases g with
  | nil => simp at hH
  | cons row0 rows =>
    have h0 : row0.length = W := hrect row0 (List.mem_cons_self _ _)
    have hu : toSizeT (W * 3) = 3 * W := by
      unfold toSizeT; rw [Nat.mod_eq_of_lt (by omega)]; omega
    have hp : paddedRowSize (3 * W) = (3 * W + 3) / 4 * 4 := paddedRowSize_eq _ hW
    have hpad : toSizeT ((3 * W + 3) / 4 * 4 + 2 ^ 64 - 3 * W) = (3 * W + 3) / 4 * 4 - 3 * W := by
      unfold toSizeT; omega
    simp only [writeFile, List.getElem?_cons_zero, h0, hu, hp, hpad]
    rw [writeRows_rect W _ _ hrect]
    rfl

theorem fromLE_le16 (n : Nat) : fromLE (le16 n) = n % 2 ^ 16 := by
  simp only [le16, fromLE, toUInt8]
  omega

theorem fromLE_le32 (n : Nat) : fromLE (le32 n) = n % 2 ^ 32 := by
  simp only [le32, fromLE, toUInt8]
  omega

theorem toInt32_toUInt32 (z : Int) (h1 : -(2 ^ 31) ≤ z) (h2 : z < 2 ^ 31) :
    toInt32 (((toUInt32 z % 2 ^ 32 : Nat) : Int)) = z := by
  unfold toInt32 toUInt32
  split <;> omega

/-- Reading back the memory of a file header gives its fields, each reduced
to the width of its type. -/
theorem fileHeaderOfBytes_fileHeaderBytes (h : BITMAP_FILE_HEADER) :
    fileHeaderOfBytes (fileHeaderBytes h) =
      { HEADER_FIELD := h.HEADER_FIELD % 2 ^ 16
        BMP_FILE_SIZE := h.BMP_FILE_SIZE % 2 ^ 32
        BMP_RESERVED_1 := h.BMP_RESERVED_1 % 2 ^ 16
        BMP_RESERVED_2 := h.BMP_RESERVED_2 % 2 ^ 16
        BMP_OFFSET := h.BMP_OFFSET % 2 ^ 32 } := by
  have e1 : fieldAt (fileHeaderBytes h) 0 2 = fromLE (le16 h.HEADER_FIELD) := rfl
  have e2 : fieldAt (fileHeaderBytes h) 2 4 = fromLE (le32 h.BMP_FILE_SIZE) := rfl
  have e3 : fieldAt (fileHeaderBytes h) 6 2 = fromLE (le16 h.BMP_RESERVED_1) := rfl
  have e4 : fieldAt (fileHeaderBytes h) 8 2 = fromLE (le16 h.BMP_RESERVED_2) := rfl
  have e5 : fieldAt (fileHeaderBytes h) 10 4 = fromLE (le32 h.BMP_OFFSET) := rfl
  unfold fileHeaderOfBytes
  rw [e1, e2, e3, e4, e5, fromLE_le16, fromLE_le16, fromLE_le16, fromLE_le32, fromLE_le32]

/-- Reading back the memory of an info header gives its fields, each reduced
to the width and signedness of its type. -/
theorem infoHeaderOfBytes_infoHeaderBytes (h : BITMAP_INFO_HEADER) :
    infoHeaderOfBytes (infoHeaderBytes h) =
      { INFO_HEADER_SIZE := h.INFO_HEADER_SIZE % 2 ^ 32
        BMP_WIDTH := toInt32 ((toUInt32 h.BMP_WIDTH % 2 ^ 32 : Nat) : Int)
        BMP_HEIGHT := toInt32 ((toUInt32 h.BMP_HEIGHT % 2 ^ 32 : Nat) : Int)
        BMP_PLANES := h.BMP_PLANES % 2 ^ 16
        BMP_BIT_COUNT := h.BMP_BIT_COUNT % 2 ^ 16
        BMP_COMPRESSION := h.BMP_COMPRESSION % 2 ^ 32
        BMP_SIZE_IMAGE := h.BMP_SIZE_IMAGE % 2 ^ 32
        BMP_XPIXELS_PER_METER := toInt32 ((toUInt32 h.BMP_XPIXELS_PER_METER % 2 ^ 32 : Nat) : Int)
        BMP_YPIXELS_PER_METER := toInt32 ((toUInt32 h.BMP_YPIXELS_PER_METER % 2 ^ 32 : Nat) : Int)
        BMP_CLR_USED := h.BMP_CLR_USED % 2 ^ 32
        BMP_CLR_IMPORTANT := h.BMP_CLR_IMPORTANT % 2 ^ 32 } := by
  have e1 : fieldAt (infoHeaderBytes h) 0 4 = fromLE (le32 h.INFO_HEADER_SIZE) := rfl
  have e2 : fieldAt (infoHeaderBytes h) 4 4 = fromLE (le32 (toUInt32 h.BMP_WIDTH)) := rfl
  have e3 : fieldAt (infoHeaderBytes h) 8 4 = fromLE (le32 (toUInt32 h.BMP_HEIGHT)) := rfl
  have e4 : fieldAt (infoHeaderBytes h) 12 2 = fromLE (le16 h.BMP_PLANES) := rfl
  have e5 : fieldAt (infoHeaderBytes h) 14 2 = fromLE (le16 h.BMP_BIT_COUNT) := rfl
  have e6 : fieldAt (infoHeaderBytes h) 16 4 = fromLE (le32 h.BMP_COMPRESSION) := rfl
  have e7 : fieldAt (infoHeaderBytes h) 20 4 = fromLE (le32 h.BMP_SIZE_IMAGE) := rfl
  have e8 : fieldAt (infoHeaderBytes h) 24 4 =
      fromLE (le32 (toUInt32 h.BMP_XPIXELS_PER_METER)) := rfl
  have e9 : fieldAt (infoHeaderBytes h) 28 4 =
      fromLE (le32 (toUInt32 h.BMP_YPIXELS_PER_METER)) := rfl
  have e10 : fieldAt (infoHeaderBytes h) 32 4 = fromLE (le32 h.BMP_CLR_USED) := rfl
  have e11 : fieldAt (infoHeaderBytes h) 36 4 = fromLE (le32 h.BMP_CLR_IMPORTANT) := rfl
  unfold infoHeaderOfBytes
  rw [e1, e2, e3, e4, e5, e6, e7, e8, e9, e10, e11]
  simp only [fromLE_le16, fromLE_le32]

theorem toUInt32_natCast (n : Nat) (h : n < 2 ^ 32) : toUInt32 (n : Int) = n := by
  unfold toUInt32
  omega

theorem toInt32_natCast (n : Nat) (h : n < 2 ^ 31) : toInt32 (n : Int) = n := by
  unfold toInt32
  split <;> omega

/-- The headers `writeFile` fills in, with the machine arithmetic carried out,
when the sizes fit in 32 bits. -/
theorem newHeaders_eq (W H : Nat) (hW : W < 2 ^ 31) (hH : H < 2 ^ 31)
    (hsize : 14 + 40 + (3 * W + 3) / 4 * 4 * H < 2 ^ 32) :
    newHeaders W H =
      ({ HEADER_FIELD := 0x4D42
         BMP_FILE_SIZE := 14 + 40 + (3 * W + 3) / 4 * 4 * H
         BMP_RESERVED_1 := 0
         BMP_RESERVED_2 := 0
         BMP_OFFSET := 54 },
       { INFO_HEADER_SIZE := 40
         BMP_WIDTH := (W : Int)
         BMP_HEIGHT := (H : Int)
         BMP_PLANES := 1
         BMP_BIT_COUNT := 24
         BMP_COMPRESSION := 0
         BMP_SIZE_IMAGE := (3 * W + 3) / 4 * 4 * H
         BMP_XPIXELS_PER_METER := 0
         BMP_YPIXELS_PER_METER := 0
         BMP_CLR_USED := 0
         BMP_CLR_IMPORTANT := 0 }) := by
  have hu : toSizeT (W * 3) = 3 * W := by
    unfold toSizeT; rw [Nat.mod_eq_of_lt (by omega)]; omega
  have hp : paddedRowSize (3 * W) = (3 * W + 3) / 4 * 4 := paddedRowSize_eq _ (by omega)
  have hs : toSizeT ((3 * W + 3) / 4 * 4 * H) = (3 * W + 3) / 4 * 4 * H := by
    unfold toSizeT; rw [Nat.mod_eq_of_lt (by omega)]
  have hf : toSizeT (14 + 40 + (3 * W + 3) / 4 * 4 * H) = 14 + 40 + (3 * W + 3) / 4 * 4 * H := by
    unfold toSizeT; rw [Nat.mod_eq_of_lt (by omega)]
  simp only [newHeaders, hu, hp, hs, hf, toUInt32_natCast _ hsize,
    toUInt32_natCast ((3 * W + 3) / 4 * 4 * H) (by omega), toInt32_natCast _ hW,
    toInt32_natCast _ hH, BMP_FILE_SIGNATURE]

theorem length_fileHeaderBytes (h : BITMAP_FILE_HEADER) : (fileHeaderBytes h).length = 14 := rfl

theorem length_infoHeaderBytes (h : BITMAP_INFO_HEADER) : (infoHeaderBytes h).length = 40 := rfl

/-! ## Parsing a file that holds both headers -/

theorem overwrite_full (buf got : List Byte) (h : buf.length ≤ got.length) :
    overwrite buf got = got := by
  unfold overwrite
  rw [List.drop_eq_nil_of_le h, List.append_nil]

/-- On a file that holds the whole file header, parsing replaces every field. -/
theorem getBMPFileHeader_full (content : List Byte) (h : 14 ≤ content.length)
    (fh0 : BITMAP_FILE_HEADER) :
    getBMPFileHeader { content := content } fh0 =
      ({ content := content, pos := 14 }, fileHeaderOfBytes (content.take 14)) := by
  have hl : (List.take 14 content).length = 14 := by
    rw [List.length_take]; omega
  simp only [getBMPFileHeader, IFStream.seekg, IFStream.read, List.drop_zero, hl,
    Bool.or_self, Bool.false_eq_true, if_false, lt_irrefl, zero_add]
  rw [overwrite_full _ _ (by rw [length_fileHeaderBytes, hl])]

/-- On a file that holds both headers, parsing replaces every field of the
info header. -/
theorem getBMPInfoHeader_full (content : List Byte) (h : 54 ≤ content.length)
    (ih0 : BITMAP_INFO_HEADER) :
    getBMPInfoHeader { content := content, pos := 14 } ih0 =
      ({ content := content, pos := 54 }, infoHeaderOfBytes ((content.drop 14).take 40)) := by
  have hl : (List.take 40 (List.drop 14 content)).length = 40 := by
    rw [List.length_take, List.length_drop]; omega
  simp only [getBMPInfoHeader, IFStream.seekg, IFStream.read, BITMAP_FILE_HEADER_SIZE, hl,
    Bool.or_self, Bool.false_eq_true, if_false, lt_irrefl]
  rw [overwrite_full _ _ (by rw [length_infoHeaderBytes, hl])]

/-- Decoding a file that holds both headers does not depend on what the
header variables held before. -/
theorem decodeFile_full (content : List Byte) (h : 54 ≤ content.length)
    (fh0 : BITMAP_FILE_HEADER) (ih0 : BITMAP_INFO_HEADER) :
    decodeFile content fh0 ih0 =
      (getPixelArray { content := content, pos := 54 } (fileHeaderOfBytes (content.take 14))
        (infoHeaderOfBytes ((content.drop 14).take 40))).map Prod.snd := by
  unfold decodeFile
  simp only [getBMPFileHeader_full content (by omega) fh0, getBMPInfoHeader_full content h ih0]

/-! ## Single precision: error bounds -/

namespace F32

end F32

/-! ## Grayscale: the computed level against the exact formula -/

theorem length_pixelsOfBytes : ∀ (n : Nat) (bs : List Byte), bs.length = 3 * n →
    (pixelsOfBytes bs).length = n := by
  intro n
  induction n with
  | zero =>
    intro bs h
    have : bs = [] := List.length_eq_zero.mp (by omega)
    subst this
    rfl
  | succ n ih =>
    intro bs h
    match bs, h with
    | b :: g :: r :: rest, h =>
      simp only [pixelsOfBytes, List.length_cons] at h ⊢
      rw [ih rest (by omega)]

theorem pixelsOfBytes_rowBytes (row : PixelRow) : pixelsOfBytes (rowBytes row) = row := by
  induction row with
  | nil => rfl
  | cons p ps ih =>
    have : rowBytes (p :: ps) = p.b :: p.g :: p.r :: rowBytes ps := rfl
    rw [this, pixelsOfBytes, ih]

/-- Pixel `j` of a buffer is made of its bytes `3 * j`, `3 * j + 1`, `3 * j + 2`. -/
theorem getElem?_pixelsOfBytes : ∀ (j : Nat) (bs : List Byte), 3 * j + 3 ≤ bs.length →
    ∃ p, (pixelsOfBytes bs)[j]? = some p ∧ bs[3 * j]? = some p.b ∧
      bs[3 * j + 1]? = some p.g ∧ bs[3 * j + 2]? = some p.r := by
  intro j
  induction j with
  | zero =>
    intro bs h
    match bs, h with
    | b :: g :: r :: rest, _ => exact ⟨⟨b, g, r⟩, by simp [pixelsOfBytes], by simp, by simp, by simp⟩
  | succ j ih =>
    intro bs h
    match bs, h with
    | b :: g :: r :: rest, h =>
      simp only [List.length_cons] at h
      obtain ⟨p, h0, h1, h2, h3⟩ := ih rest (by omega)
      refine ⟨p, ?_, ?_, ?_, ?_⟩
      · simpa [pixelsOfBytes] using h0
      · have e : 3 * (j + 1) = (3 * j) + 1 + 1 + 1 := by ring
        rw [e]
        simpa using h1
      · have e : 3 * (j + 1) + 1 = (3 * j + 1) + 1 + 1 + 1 := by ring
        rw [e]
        simpa using h2
      · have e : 3 * (j + 1) + 2 = (3 * j + 2) + 1 + 1 + 1 := by ring
        rw [e]
        simpa using h3

/-! ## The read loop of `getPixelArray` -/

theorem checkedInt_natCast (n : Nat) (h : n < 2 ^ 31) : checkedInt (n : Int) = .ok (n : Int) := by
  unfold checkedInt
  rw [if_pos (by omega)]

theorem IFStream.length_read_le (s : IFStream) (n : Nat) : (s.read n).2.length ≤ n := by
  unfold IFStream.read
  simp only []
  split_ifs <;> simp [List.length_take]

theorem IFStream.content_read (s : IFStream) (n : Nat) : (s.read n).1.content = s.content := by
  unfold IFStream.read
  simp only []
  split_ifs <;> rfl

theorem IFStream.content_seekg (s : IFStream) (n : Nat) : (s.seekg n).content = s.content := by
  unfold IFStream.seekg
  split_ifs <;> rfl

theorem IFStream.failbit_seekg (s : IFStream) (n : Nat) : (s.seekg n).failbit = s.failbit := by
  unfold IFStream.seekg
  split_ifs <;> rfl

theorem IFStream.failbit_read (s : IFStream) (n : Nat) (h : s.failbit = true) :
    (s.read n).1.failbit = true := by
  unfold IFStream.read
  rw [h]
  simp

/-- A read that asks for more bytes than are left after the get position sets `failbit`. -/
theorem IFStream.failbit_read_short (s : IFStream) (n : Nat)
    (h : s.content.length < s.pos + n) (hn : 0 < n) : (s.read n).1.failbit = true := by
  unfold IFStream.read
  simp only []
  split_ifs with h1 h2
  · rfl
  · rfl
  · exfalso
    simp only [List.length_take, List.length_drop, Nat.min_def] at h2
    split_ifs at h2 <;> omega

/-- One iteration of the read loop when the `int` products are representable:
it never faults when each pixel takes three bytes. -/
theorem readRow_eq (offset S W : Nat) (file : IFStream) (i : Nat)
    (hskip : S * i < 2 ^ 31) (hcount : 3 * W < 2 ^ 31) :
    readRow offset (S : Int) (W : Int) 3 file i =
      .ok (((file.seekg ((offset + S * i) % 2 ^ 32)).read (3 * W)).1,
        pixelsOfBytes (overwrite (List.replicate (3 * W) 0)
          ((file.seekg ((offset + S * i) % 2 ^ 32)).read (3 * W)).2)) := by
  have h1 : ¬ ((W : Int) < 0) := by omega
  have h2 : checkedInt ((S : Int) * (i : Int)) = .ok ((S * i : Nat) : Int) := by
    rw [← checkedInt_natCast _ hskip]; push_cast; rfl
  have h3 : checkedInt ((W : Int) * 3) = .ok ((3 * W : Nat) : Int) := by
    rw [← checkedInt_natCast _ hcount]; push_cast; rw [mul_comm]
  have h4 : toUInt32 ((S * i : Nat) : Int) = S * i := toUInt32_natCast _ (by omega)
  have h5 := IFStream.length_read_le (file.seekg ((offset + S * i) % 2 ^ 32)) (3 * W)
  unfold readRow
  rw [if_neg h1, h2, h3]
  simp only [bind, Except.bind, pure, Except.pure, h4, Int.toNat_ofNat, List.length_replicate]
  rw [if_neg (by omega)]

theorem length_overwrite (buf got : List Byte) (h : got.length ≤ buf.length) :
    (overwrite buf got).length = buf.length := by
  unfold overwrite
  rw [List.length_append, List.length_drop]
  omega

/-- What one iteration of the read loop leaves behind, whatever the state of the
stream: a row of `W` pixels, the same file content, a `failbit` that stays set
once set and that is set when the row's bytes run past the end of the file. -/
theorem readRow_shape (offset S W : Nat) (file : IFStream) (i : Nat)
    (hskip : S * i < 2 ^ 31) (hcount : 3 * W < 2 ^ 31) :
    ∃ file' row, readRow offset (S : Int) (W : Int) 3 file i = .ok (file', row) ∧
      row.length = W ∧ file'.content = file.content ∧
      (file.failbit = true → file'.failbit = true) ∧
      (0 < W → file.content.length < (offset + S * i) % 2 ^ 32 + 3 * W →
        file'.failbit = true) := by
  refine ⟨_, _, readRow_eq offset S W file i hskip hcount, ?_, ?_, ?_, ?_⟩
  · apply length_pixelsOfBytes
    rw [length_overwrite _ _ (by
      rw [List.length_replicate]; exact IFStream.length_read_le _ _), List.length_replicate]
  · rw [IFStream.content_read, IFStream.content_seekg]
  · intro hf
    exact IFStream.failbit_read _ _ (by rw [IFStream.failbit_seekg]; exact hf)
  · intro hW hlen
    by_cases hf : file.failbit = true
    · exact IFStream.failbit_read _ _ (by rw [IFStream.failbit_seekg]; exact hf)
    · apply IFStream.failbit_read_short _ _ _ (by omega)
      have hf' : file.failbit = false := by simpa using hf
      have hp : (file.seekg ((offset + S * i) % 2 ^ 32)).pos = (offset + S * i) % 2 ^ 32 := by
        unfold IFStream.seekg
        rw [hf']
        rfl
      rw [IFStream.content_seekg, hp]
      exact hlen

theorem readRows_succ (offset : Nat) (S W b : Int) (n i : Nat) (file : IFStream) :
    readRows offset S W b (n + 1) i file =
      (readRow offset S W b file i).bind (fun r =>
        (readRows offset S W b n (i + 1) r.1).bind (fun rs => .ok (rs.1, r.2 :: rs.2))) := rfl

/-- The read loop returns `n` rows of `W` pixels whatever the stream holds. -/
theorem readRows_shape (offset S W : Nat) (hcount : 3 * W < 2 ^ 31) :
    ∀ (n i : Nat) (file : IFStream), (∀ k, k < n → S * (i + k) < 2 ^ 31) →
    ∃ file' rows, readRows offset (S : Int) (W : Int) 3 n i file = .ok (file', rows) ∧
      rows.length = n ∧ (∀ row ∈ rows, row.length = W) ∧ file'.content = file.content ∧
      (file.failbit = true → file'.failbit = true) ∧
      ((∃ k, k < n ∧ 0 < W ∧
          file.content.length < (offset + S * (i + k)) % 2 ^ 32 + 3 * W) →
        file'.failbit = true) := by
  intro n
  induction n with
  | zero =>
    intro i file _
    refine ⟨file, [], rfl, rfl, ?_, rfl, id, ?_⟩
    · intro row hrow; cases hrow
    · rintro ⟨k, hk, _⟩; omega
  | succ n ih =>
    intro i file hskip
    obtain ⟨f1, row, e1, l1, c1, p1, t1⟩ :=
      readRow_shape offset S W file i (by simpa using hskip 0 (by omega)) hcount
    obtain ⟨f2, rows, e2, l2, r2, c2, p2, t2⟩ := ih (i + 1) f1 (by
      intro k hk
      have := hskip (k + 1) (by omega)
      rwa [show i + (k + 1) = i + 1 + k by omega] at this)
    refine ⟨f2, row :: rows, ?_, ?_, ?_, ?_, ?_, ?_⟩
    · rw [readRows_succ, e1, Except.bind, e2]
      rfl
    · rw [List.length_cons, l2]
    · intro r hr
      rcases List.mem_cons.mp hr with h | h
      · rw [h]; exact l1
      · exact r2 r h
    · rw [c2, c1]
    · intro hf; exact p2 (p1 hf)
    · rintro ⟨k, hk, hW, hlen⟩
      cases k with
      | zero => exact p2 (t1 hW (by simpa using hlen))
      | succ k =>
        apply t2
        refine ⟨k, by omega, hW, ?_⟩
        rw [c1, show i + 1 + k = i + (k + 1) by omega]
        exact hlen

/-- One iteration of the read loop on a stream in good state whose file holds
the whole row: the row is made of the `3 * W` bytes at the row's address. -/
theorem readRow_good (offset S W : Nat) (file : IFStream) (i : Nat)
    (hskip : S * i < 2 ^ 31) (hcount : 3 * W < 2 ^ 31) (hf : file.failbit = false)
    (hfit : offset + S * i + 3 * W ≤ file.content.length)
    (hlen : file.content.length < 2 ^ 32) :
    readRow offset (S : Int) (W : Int) 3 file i =
      .ok ({ content := file.content, pos := offset + S * i + 3 * W },
        pixelsOfBytes ((file.content.drop (offset + S * i)).take (3 * W))) := by
  rw [readRow_eq offset S W file i hskip hcount]
  have hmod : (offset + S * i) % 2 ^ 32 = offset + S * i := Nat.mod_eq_of_lt (by omega)
  have hseek : file.seekg ((offset + S * i) % 2 ^ 32) =
      { content := file.content, pos := offset + S * i } := by
    unfold IFStream.seekg
    rw [hf, hmod]
    rfl
  have hl : (List.take (3 * W) (List.drop (offset + S * i) file.content)).length = 3 * W := by
    rw [List.length_take, List.length_drop]
    omega
  have hread : (IFStream.read { content := file.content, pos := offset + S * i } (3 * W)) =
      ({ content := file.content, pos := offset + S * i + 3 * W },
        (file.content.drop (offset + S * i)).take (3 * W)) := by
    unfold IFStream.read
    simp only [Bool.or_self, Bool.false_eq_true, if_false, hl, lt_irrefl]
  rw [hseek, hread]
  simp only []
  rw [overwrite_full _ _ (by rw [List.length_replicate, hl])]

/-- The read loop on a stream in good state whose file holds every row: row `k`
is made of the `3 * W` bytes at `offset + S * (i + k)`. -/
theorem readRows_good (offset S W : Nat) (hcount : 3 * W < 2 ^ 31) (content : List Byte)
    (hlen : content.length < 2 ^ 32) :
    ∀ (n i : Nat) (file : IFStream), file.content = content → file.failbit = false →
      (∀ k, k < n → S * (i + k) < 2 ^ 31 ∧ offset + S * (i + k) + 3 * W ≤ content.length) →
      ∃ file', readRows offset (S : Int) (W : Int) 3 n i file =
        .ok (file', (List.range n).map (fun k =>
          pixelsOfBytes ((content.drop (offset + S * (i + k))).take (3 * W)))) := by
  intro n
  induction n with
  | zero =>
    intro i file _ _ _
    exact ⟨file, rfl⟩
  | succ n ih =>
    intro i file hc hf h
    obtain ⟨h0a, h0b⟩ := h 0 (by omega)
    rw [Nat.add_zero] at h0a h0b
    have e1 := readRow_good offset S W file i h0a hcount hf (by rw [hc]; exact h0b)
      (by rw [hc]; exact hlen)
    obtain ⟨f2, e2⟩ := ih (i + 1) { content := file.content, pos := offset + S * i + 3 * W }
      hc rfl (by
        intro k hk
        have := h (k + 1) (by omega)
        rwa [show i + (k + 1) = i + 1 + k by omega] at this)
    refine ⟨f2, ?_⟩
    have hlist : (List.range (n + 1)).map (fun k =>
        pixelsOfBytes ((content.drop (offset + S * (i + k))).take (3 * W))) =
        pixelsOfBytes ((file.content.drop (offset + S * i)).take (3 * W)) ::
          (List.range n).map (fun k =>
            pixelsOfBytes ((content.drop (offset + S * (i + 1 + k))).take (3 * W))) := by
      rw [List.range_succ_eq_map, List.map_cons, List.map_map, hc, Nat.add_zero]
      refine congrArg _ (List.map_congr_left ?_)
      intro k _
      simp only [Function.comp, Nat.succ_eq_add_one]
      rw [show i + (k + 1) = i + 1 + k by omega]
    rw [hlist, readRows_succ, e1]
    show (readRows _ _ _ _ n (i + 1) _).bind _ = _
    rw [e2]
    rfl

/-- The stride `getPixelArray` computes for bit count 24 and a width `W ≥ 0`
whose bit count fits an `int`. -/
theorem rowSize_24 (W : Nat) (hbits : 24 * W < 2 ^ 31) :
    rowSize 24 (W : Int) = .ok ((24 * W / 32 * 4 : Nat) : Int) := by
  unfold rowSize
  have h : checkedInt (((24 : Nat) : Int) * (W : Int)) = .ok ((24 * W : Nat) : Int) := by
    rw [← checkedInt_natCast _ hbits]; push_cast; rfl
  rw [h]
  simp only [bind, Except.bind, pure, Except.pure]
  rfl

/-- With bit count 24, a width `W ≥ 0` and a height `H ≥ 0`, `getPixelArray`
is the read loop over `H` rows with stride `24 * W / 32 * 4`. -/
theorem getPixelArray_eq (file : IFStream) (fh : BITMAP_FILE_HEADER) (ih : BITMAP_INFO_HEADER)
    (W H : Nat) (hb : ih.BMP_BIT_COUNT = 24) (hw : ih.BMP_WIDTH = (W : Int))
    (hh : ih.BMP_HEIGHT = (H : Int)) (hbits : 24 * W < 2 ^ 31) :
    getPixelArray file fh ih =
      readRows fh.BMP_OFFSET ((24 * W / 32 * 4 : Nat) : Int) (W : Int) 3 H 0 file := by
  unfold getPixelArray
  rw [hb, hw, hh, rowSize_24 W hbits]
  simp only [bind, Except.bind]
  rw [if_neg (by omega), Int.toNat_ofNat]
  rfl

theorem getElem?_window (content : List Byte) (a n m : Nat) (hm : m < n) :
    ((content.drop a).take n)[m]? = content[a + m]? := by
  rw [List.getElem?_take_of_lt hm, List.getElem?_drop]

/-! ## The read loop: what each row holds -/

/-- Storage that started as zeros, after `got` has been stored at its start:
byte `m` is `got[m]` where `got` reaches and 0 beyond. -/
theorem overwrite_zeros (n : Nat) (got : List Byte) (h : got.length ≤ n) :
    overwrite (List.replicate n 0) got = (List.range n).map (fun m => got.getD m 0) := by
  apply List.ext_getElem?
  intro m
  unfold overwrite
  by_cases hm : m < n
  · rw [List.getElem?_map, List.getElem?_range hm, Option.map_some', List.getD_eq_getElem?_getD]
    by_cases hg : m < got.length
    · rw [List.getElem?_append_left hg, List.getElem?_eq_getElem hg]
      rfl
    · rw [List.getElem?_append_right (by omega), List.getElem?_drop,
        List.getElem?_eq_none (show got.length ≤ m by omega)]
      rw [List.getElem?_replicate]
      rw [if_pos (by omega)]
      rfl
  · rw [List.getElem?_eq_none, List.getElem?_eq_none]
    · rw [List.length_map, List.length_range]; omega
    · rw [List.length_append, List.length_drop, List.length_replicate]; omega

theorem getD_window (content : List Byte) (a n m : Nat) (hm : m < n) :
    ((content.drop a).take n).getD m 0 = content.getD (a + m) 0 := by
  rw [List.getD_eq_getElem?_getD, List.getD_eq_getElem?_getD, getElem?_window _ _ _ _ hm]

/-- A read on a stream that has not failed stores the bytes from the get
position on, and fails exactly when fewer than `n` are left. -/
theorem IFStream.read_good (content : List Byte) (a n : Nat) (hn : 0 < n) :
    (IFStream.read ⟨content, a, false, false⟩ n).2 = (content.drop a).take n ∧
    ((IFStream.read ⟨content, a, false, false⟩ n).1.failbit = false ↔
      a + n ≤ content.length) := by
  refine ⟨?_, ?_⟩
  · unfold IFStream.read
    simp only [Bool.or_self, Bool.false_eq_true, if_false]
    split_ifs <;> rfl
  · have hl : (List.take n (List.drop a content)).length = min n (content.length - a) := by
      rw [List.length_take, List.length_drop]
    unfold IFStream.read
    simp only [Bool.or_self, Bool.false_eq_true, if_false]
    by_cases hlt : (List.take n (List.drop a content)).length < n
    · rw [if_pos hlt]
      rw [hl] at hlt
      constructor
      · intro h; cases h
      · intro h; omega
    · rw [if_neg hlt]
      rw [hl] at hlt
      constructor
      · intro _; omega
      · intro _; rfl

theorem IFStream.seekg_good (file : IFStream) (a : Nat) (hf : file.failbit = false) :
    file.seekg a = ⟨file.content, a, false, false⟩ := by
  cases file with
  | mk c p e f =>
    simp only at hf
    subst hf
    rfl

/-- One iteration of the read loop, whatever the state of the stream: byte
`m` of the row's storage is the file byte at the row's address plus `m` when
the stream had not failed and the file reaches that far, and 0 otherwise; the
stream afterwards has not failed exactly when it had not failed before and
the file holds the whole row. -/
theorem readRow_content (offset S W : Nat) (file : IFStream) (i : Nat)
    (hskip : S * i < 2 ^ 31) (hcount : 3 * W < 2 ^ 31) (hW : 0 < W) :
    ∃ file', readRow offset (S : Int) (W : Int) 3 file i =
        .ok (file', pixelsOfBytes ((List.range (3 * W)).map (fun m =>
          if file.failbit = false then file.content.getD ((offset + S * i) % 2 ^ 32 + m) 0
          else 0))) ∧
      file'.content = file.content ∧
      (file'.failbit = false ↔
        file.failbit = false ∧ (offset + S * i) % 2 ^ 32 + 3 * W ≤ file.content.length) := by
  rw [readRow_eq offset S W file i hskip hcount]
  refine ⟨((file.seekg ((offset + S * i) % 2 ^ 32)).read (3 * W)).1, ?_,
    by rw [IFStream.content_read, IFStream.content_seekg], ?_⟩
  · rw [overwrite_zeros _ _ (IFStream.length_read_le _ _)]
    refine congrArg (fun l => Except.ok (_, pixelsOfBytes l)) (List.map_congr_left ?_)
    intro m hm
    have hm' : m < 3 * W := List.mem_range.mp hm
    by_cases hf : file.failbit = false
    · rw [if_pos hf, IFStream.seekg_good file _ hf,
        (IFStream.read_good file.content _ (3 * W) (by omega)).1, getD_window _ _ _ _ hm']
    · rw [if_neg hf]
      have hf' : file.failbit = true := by simpa using hf
      have hread : ((file.seekg ((offset + S * i) % 2 ^ 32)).read (3 * W)).2 = [] := by
        unfold IFStream.read
        rw [IFStream.failbit_seekg, hf']
        simp
      rw [hread]
      rfl
  · by_cases hf : file.failbit = false
    · rw [IFStream.seekg_good file _ hf,
        (IFStream.read_good file.content _ (3 * W) (by omega)).2]
      simp only [hf, true_and]
    · have hf' : file.failbit = true := by simpa using hf
      rw [IFStream.failbit_read _ _ (by rw [IFStream.failbit_seekg]; exact hf')]
      simp [hf']

/-- The read loop, whatever the state of the stream: byte `m` of row `i + k`
is the file byte at the row's address plus `m` when the stream had not failed
on entry, the file holds every earlier row whole and reaches that far, and 0
otherwise. -/
theorem readRows_content (offset S W : Nat) (hcount : 3 * W < 2 ^ 31) (hW : 0 < W) :
    ∀ (n i : Nat) (file : IFStream), (∀ k, k < n → S * (i + k) < 2 ^ 31) →
    ∃ file', readRows offset (S : Int) (W : Int) 3 n i file =
      .ok (file', (List.range n).map (fun k =>
        pixelsOfBytes ((List.range (3 * W)).map (fun m =>
          if file.failbit = false ∧ (∀ k', k' < k →
              (offset + S * (i + k')) % 2 ^ 32 + 3 * W ≤ file.content.length)
          then file.content.getD ((offset + S * (i + k)) % 2 ^ 32 + m) 0 else 0)))) := by
  intro n
  induction n with
  | zero =>
    intro i file _
    exact ⟨file, rfl⟩
  | succ n ih =>
    intro i file hskip
    obtain ⟨f1, e1, c1, b1⟩ :=
      readRow_content offset S W file i (by simpa using hskip 0 (by omega)) hcount hW
    obtain ⟨f2, e2⟩ := ih (i + 1) f1 (by
      intro k hk
      have := hskip (k + 1) (by omega)
      rwa [show i + (k + 1) = i + 1 + k by omega] at this)
    refine ⟨f2, ?_⟩
    rw [readRows_succ, e1]
    show (readRows _ _ _ _ n (i + 1) _).bind _ = _
    rw [e2]
    show Except.ok _ = Except.ok _
    refine congrArg (fun l => Except.ok (f2, l)) ?_
    rw [List.range_succ_eq_map, List.map_cons, List.map_map]
    refine congrArg₂ List.cons ?_ (List.map_congr_left ?_)
    · refine congrArg pixelsOfBytes (List.map_congr_left ?_)
      intro m _
      have hp : (file.failbit = false ∧ ∀ k', k' < 0 →
          (offset + S * (i + k')) % 2 ^ 32 + 3 * W ≤ file.content.length) ↔
          file.failbit = false := by
        constructor
        · exact fun h => h.1
        · exact fun h => ⟨h, fun k' hk' => absurd hk' (Nat.not_lt_zero _)⟩
      rw [Nat.add_zero]
      by_cases hf : file.failbit = false
      · rw [if_pos hf, if_pos (hp.mpr hf)]
      · rw [if_neg hf, if_neg (fun h => hf (hp.mp h))]
    · intro k _
      simp only [Function.comp, Nat.succ_eq_add_one]
      refine congrArg pixelsOfBytes (List.map_congr_left ?_)
      intro m _
      have hp : (f1.failbit = false ∧ ∀ k', k' < k →
          (offset + S * (i + 1 + k')) % 2 ^ 32 + 3 * W ≤ f1.content.length) ↔
          (file.failbit = false ∧ ∀ k', k' < k + 1 →
            (offset + S * (i + k')) % 2 ^ 32 + 3 * W ≤ file.content.length) := by
        rw [b1, c1]
        constructor
        · rintro ⟨⟨hf, h0⟩, hr⟩
          refine ⟨hf, fun k' hk' => ?_⟩
          cases k' with
          | zero => simpa using h0
          | succ k' =>
            have := hr k' (by omega)
            rwa [show i + 1 + k' = i + (k' + 1) by omega] at this
        · rintro ⟨hf, hr⟩
          refine ⟨⟨hf, by simpa using hr 0 (by omega)⟩, fun k' hk' => ?_⟩
          have := hr (k' + 1) (by omega)
          rwa [show i + (k' + 1) = i + 1 + k' by omega] at this
      rw [c1, show i + 1 + k = i + (k + 1) by omega]
      by_cases hc : (file.failbit = false ∧ ∀ k', k' < k + 1 →
            (offset + S * (i + k')) % 2 ^ 32 + 3 * W ≤ file.content.length)
      · rw [if_pos hc]
        rw [if_pos]
        rw [← c1]
        exact hp.mpr hc
      · rw [if_neg hc]
        rw [if_neg]
        rw [← c1]
        exact fun h => hc (hp.mp h)

/-! ## The checked swap loop and the shape of the transforms -/

theorem swapAtChecked_eq {α : Type} (v : List α) (i j : Nat) (hi : i < v.length)
    (hj : j < v.length) : swapAtChecked v i j = .ok (swapAt v i j) := by
  unfold swapAtChecked swapAt
  rw [List.getElem?_eq_getElem hi, List.getElem?_eq_getElem hj]

/-- No iteration of the swap loop uses a subscript that is out of range. -/
theorem swapLoopChecked_steps {α : Type} (v : List α) (k : Nat) (hk : k ≤ v.length / 2) :
    (List.range k).foldlM (fun acc i => swapAtChecked acc i (acc.length - i - 1)) v =
      .ok ((List.range k).foldl (fun acc i => swapAt acc i (acc.length - i - 1)) v) := by
  induction k with
  | zero => rfl
  | succ k ih =>
    have hlen := And.left ( swapLoop_prefix v k (by omega))
    rw [List.range_succ, List.foldlM_append, List.foldl_append, ih (by omega)]
    simp only [List.foldl_cons, List.foldl_nil, bind, Except.bind, List.foldlM_cons,
      List.foldlM_nil]
    rw [swapAtChecked_eq _ _ _ (by rw [hlen]; omega) (by rw [hlen]; omega)]
    rfl

theorem swapLoopChecked_eq {α : Type} (v : List α) : swapLoopChecked v = .ok (swapLoop v) :=
  swapLoopChecked_steps v (v.length / 2) (le_refl _)

theorem invertPixel_val (p : OPAQUE_COLOR_24_PIXEL) :
    (invertPixel p).r.val = 255 - p.r.val ∧ (invertPixel p).g.val = 255 - p.g.val ∧
      (invertPixel p).b.val = 255 - p.b.val := by
  have hr := p.r.isLt
  have hg := p.g.isLt
  have hb := p.b.isLt
  simp only [invertPixel, toUInt8]
  refine ⟨?_, ?_, ?_⟩ <;> omega

theorem pixelAt_map (f : OPAQUE_COLOR_24_PIXEL → OPAQUE_COLOR_24_PIXEL) (g : PixelArray)
    (i j : Nat) : pixelAt (g.map (fun row => row.map f)) i j = (pixelAt g i j).map f := by
  unfold pixelAt
  rw [List.getElem?_map]
  cases g[i]? with
  | none => rfl
  | some row =>
    simp only [Option.map_some', Option.some_bind, List.getElem?_map]

theorem horizonalFlipChecked_eq (g : PixelArray) :
    horizonalFlipChecked g = .ok (horizonalFlip g) := by
  induction g with
  | nil => rfl
  | cons row rows ih =>
    simp only [horizonalFlipChecked, swapLoopChecked_eq, ih, bind, Except.bind]
    rfl

/-- What follows from the row lengths being rearranged at most: the number of
rows and rectangularity are kept. -/
theorem shape_of_perm (g g' : PixelArray)
    (h : (g'.map List.length).Perm (g.map List.length)) :
    g'.length = g.length ∧
      ((g'.map List.length : List Nat) : Multiset Nat) = ((g.map List.length : List Nat) : Multiset Nat) ∧
      ∀ W, (∀ row ∈ g, row.length = W) → ∀ row ∈ g', row.length = W := by
  refine ⟨?_, Multiset.coe_eq_coe.mpr h, ?_⟩
  · have := h.length_eq
    rwa [List.length_map, List.length_map] at this
  · intro W hW row hrow
    have h1 : row.length ∈ g'.map List.length := List.mem_map_of_mem _ hrow
    have h2 := h.mem_iff.mp h1
    obtain ⟨r, hr, e⟩ := List.mem_map.mp h2
    rw [← e]
    exact hW r hr

theorem map_length_map (f : OPAQUE_COLOR_24_PIXEL → OPAQUE_COLOR_24_PIXEL) (g : PixelArray) :
    (g.map (fun row => row.map f)).map List.length = g.map List.length := by
  rw [List.map_map]
  apply List.map_congr_left
  intro row _
  simp

/-! ## What `writeFile` emits, read back -/

/-- Under the size bounds the two headers `writeFile` builds are read back
unchanged from their memory. -/
theorem newHeaders_read_back (W H : Nat) (hW : W < 2 ^ 31) (hH : H < 2 ^ 31)
    (hsize : 14 + 40 + (3 * W + 3) / 4 * 4 * H < 2 ^ 32) :
    fileHeaderOfBytes (fileHeaderBytes (newHeaders W H).1) = (newHeaders W H).1 ∧
    infoHeaderOfBytes (infoHeaderBytes (newHeaders W H).2) = (newHeaders W H).2 := by
  rw [newHeaders_eq W H hW hH hsize]
  constructor
  · rw [fileHeaderOfBytes_fileHeaderBytes]
    simp only [BITMAP_FILE_HEADER.mk.injEq]
    refine ⟨by norm_num, Nat.mod_eq_of_lt hsize, by norm_num, by norm_num, by norm_num⟩
  · rw [infoHeaderOfBytes_infoHeaderBytes]
    simp only [BITMAP_INFO_HEADER.mk.injEq]
    refine ⟨by norm_num, ?_, ?_, by norm_num, by norm_num, by norm_num,
      Nat.mod_eq_of_lt (by omega), ?_, ?_, by norm_num, by norm_num⟩
    · exact toInt32_toUInt32 _ (by omega) (by omega)
    · exact toInt32_toUInt32 _ (by omega) (by omega)
    · exact toInt32_toUInt32 _ (by norm_num) (by norm_num)
    · exact toInt32_toUInt32 _ (by norm_num) (by norm_num)

/-- The pixel data of a rectangular grid: `P` bytes for each row. -/
theorem length_pixelData (W P : Nat) (pad : List Byte) (hpad : 3 * W + pad.length = P)
    (g : PixelArray) (hrect : ∀ row ∈ g, row.length = W) :
    (g.flatMap (fun row => rowBytes row ++ pad)).length = P * g.length := by
  induction g with
  | nil => rfl
  | cons row rows ih =>
    rw [List.flatMap_cons, List.length_append, List.length_append, length_rowBytes,
      hrect row (List.mem_cons_self _ _), ih (fun r hr => hrect r (List.mem_cons_of_mem _ hr)),
      List.length_cons, hpad, Nat.mul_succ]
    omega

/-- The first 14 bytes of a written file and the 40 that follow. -/
theorem take_headers (a b c : List Byte) (ha : a.length = 14) (hb : b.length = 40) :
    (a ++ b ++ c).take 14 = a ∧ ((a ++ b ++ c).drop 14).take 40 = b ∧
      (a ++ b ++ c).drop 54 = c := by
  refine ⟨?_, ?_, ?_⟩
  · rw [List.append_assoc, ← ha, List.take_left']
    rfl
  · rw [List.append_assoc, ← ha, List.drop_left', ← hb, List.take_left']
    · rfl
    · rfl
  · have : (a ++ b).length = 54 := by rw [List.length_append, ha, hb]
    rw [← this, List.drop_left']
    rfl

/-- In the pixel data of a rectangular grid, the first `3 * W` bytes of the
`k`-th chunk of `P` bytes are the bytes of row `k`. -/
theorem window_pixelData (W P : Nat) (pad : List Byte) (hpad : 3 * W + pad.length = P) :
    ∀ (g : PixelArray) (k : Nat) (hk : k < g.length), (∀ row ∈ g, row.length = W) →
      ((g.flatMap (fun row => rowBytes row ++ pad)).drop (P * k)).take (3 * W) =
        rowBytes g[k] := by
  intro g
  induction g with
  | nil => intro k hk; simp at hk
  | cons row rows ih =>
    intro k hk hrect
    have hrow : (rowBytes row).length = 3 * W := by
      rw [length_rowBytes, hrect row (List.mem_cons_self _ _)]
    cases k with
    | zero =>
      rw [List.flatMap_cons, Nat.mul_zero, List.drop_zero, List.append_assoc, ← hrow,
        List.take_left']
      · rfl
      · rfl
    | succ k =>
      have hchunk : (rowBytes row ++ pad).length = P := by
        rw [List.length_append, hrow, hpad]
      rw [List.flatMap_cons, show P * (k + 1) = (rowBytes row ++ pad).length + P * k by
        rw [hchunk]; ring, List.drop_append]
      rw [ih k (by simpa using hk) (fun r hr => hrect r (List.mem_cons_of_mem _ hr))]
      rfl

/-- The two strides agree exactly for widths that are multiples of 4. -/
theorem stride_eq_iff (W : Nat) : 24 * W / 32 * 4 = (3 * W + 3) / 4 * 4 ↔ 4 ∣ W := by
  constructor
  · intro h
    omega
  · rintro ⟨m, rfl⟩
    omega

/-! ## The output file -/

/-- The write loop, step by step and as a whole, when no row is too short. -/
theorem writeRowsOutcome_of_ok (u : Nat) (padding : List Byte) (g : PixelArray)
    (bytes : List Byte) (h : writeRows u padding g = .ok bytes) :
    writeRowsOutcome u padding g = (bytes, none) := by
  induction g generalizing bytes with
  | nil =>
    cases h
    rfl
  | cons row rows ih =>
    unfold writeRows at h
    unfold writeRowsOutcome
    cases hr : writeRow u padding row with
    | error f =>
      rw [hr] at h
      cases h
    | ok out =>
      rw [hr] at h
      cases hs : writeRows u padding rows with
      | error f =>
        rw [hs] at h
        cases h
      | ok rest =>
        rw [hs] at h
        cases h
        simp only [ih rest hs]

/-- The write loop, step by step and as a whole, when a row is too short. -/
theorem writeRowsOutcome_of_error (u : Nat) (padding : List Byte) (g : PixelArray)
    (f : Fault) (h : writeRows u padding g = .error f) :
    (writeRowsOutcome u padding g).2 = some f := by
  induction g with
  | nil => cases h
  | cons row rows ih =>
    unfold writeRows at h
    unfold writeRowsOutcome
    cases hr : writeRow u padding row with
    | error f1 =>
      rw [hr] at h
      cases h
      rfl
    | ok out =>
      rw [hr] at h
      cases hs : writeRows u padding rows with
      | error f1 =>
        rw [hs] at h
        cases h
        exact ih hs
      | ok rest =>
        rw [hs] at h
        cases h

/-- When `writeFile` runs to its end, the file holds what it wrote. -/
theorem writeFileOutcome_of_ok (g : PixelArray) (bytes : List Byte)
    (h : writeFile g = .ok bytes) : writeFileOutcome g = (some bytes, none) := by
  unfold writeFile at h
  unfold writeFileOutcome
  cases h0 : g[0]? with
  | none =>
    rw [h0] at h
    cases h
  | some row0 =>
    rw [h0] at h
    simp only at h ⊢
    cases hs : writeRows (toSizeT (row0.length * 3))
        (List.replicate (toSizeT (paddedRowSize (toSizeT (row0.length * 3)) + 2 ^ 64 -
          toSizeT (row0.length * 3))) 0) g with
    | error f =>
      rw [hs] at h
      cases h
    | ok rows =>
      rw [hs] at h
      cases h
      rw [writeRowsOutcome_of_ok _ _ _ _ hs, List.nil_append]

/-- When `writeFile` ends in a fault, the file has been created all the same. -/
theorem writeFileOutcome_of_error (g : PixelArray) (f : Fault)
    (h : writeFile g = .error f) :
    (writeFileOutcome g).1.isSome = true ∧ (writeFileOutcome g).2 = some f := by
  unfold writeFile at h
  unfold writeFileOutcome
  cases h0 : g[0]? with
  | none =>
    rw [h0] at h
    cases h
    exact ⟨rfl, rfl⟩
  | some row0 =>
    rw [h0] at h
    simp only at h ⊢
    cases hs : writeRows (toSizeT (row0.length * 3))
        (List.replicate (toSizeT (paddedRowSize (toSizeT (row0.length * 3)) + 2 ^ 64 -
          toSizeT (row0.length * 3))) 0) g with
    | error f1 =>
      rw [hs] at h
      cases h
      exact ⟨rfl, writeRowsOutcome_of_error _ _ _ _ hs⟩
    | ok rows =>
      rw [hs] at h
      cases h

/-! ## The claims -/

/-- C1 (evaluation at the failing input). The grid of two rows of one pixel,
red above green, is written as 62 bytes; parsing the headers of that file and
running `getPixelArray` returns red in both rows, whatever the header
variables held before. -/
theorem roundtrip_two_rows_width_one (fh0 : BITMAP_FILE_HEADER) (ih0 : BITMAP_INFO_HEADER) :
    ∃ bytes decoded, writeFile [[⟨0, 0, 255⟩], [⟨0, 255, 0⟩]] = .ok bytes ∧
      bytes.length = 62 ∧ decodeFile bytes fh0 ih0 = .ok decoded ∧
      decoded = [[⟨0, 0, 255⟩], [⟨0, 0, 255⟩]] ∧ decoded ≠ [[⟨0, 0, 255⟩], [⟨0, 255, 0⟩]] := by
  refine ⟨_, _, rfl, by decide, ?_, rfl, by decide⟩
  rw [decodeFile_full _ (by decide)]
  decide

/-- C2 (evaluation at the failing input). For bit count 24 and width 1 the
row stride `getPixelArray` computes is 0, while one encoded row of width 1 is
4 bytes long; for width 4 both are 12. -/
theorem rowSize_width_one :
    rowSize 24 1 = .ok 0 ∧ paddedRowSize (3 * 1) = 4 ∧
      rowSize 24 4 = .ok 12 ∧ paddedRowSize (3 * 4) = 12 := by
  decide

/-- C3. Validation of signature and header size: for every parsed header
pair, a signature other than 0x4D42 (the bytes 0x42, 0x4D) is rejected with
`InvalidSignature` whatever the other fields are; otherwise an info-header
size other than 40 is rejected with `UnsupportedFormat`; in both cases the
validation loop moves on to the next path without calling `getPixelArray` on
the file, so a session that is offered only this file decodes nothing. -/
theorem validate_signature_and_size (fileHeader : BITMAP_FILE_HEADER)
    (infoHeader : BITMAP_INFO_HEADER) :
    (fileHeader.HEADER_FIELD ≠ 0x4D42 →
      validate fileHeader infoHeader = some .InvalidSignature) ∧
    (fileHeader.HEADER_FIELD = 0x4D42 → infoHeader.INFO_HEADER_SIZE ≠ 40 →
      validate fileHeader infoHeader = some .UnsupportedFormat) ∧
    (fileHeader.HEADER_FIELD ≠ 0x4D42 ∨ infoHeader.INFO_HEADER_SIZE ≠ 40 →
      ∀ (content : List Byte) (fh0 : BITMAP_FILE_HEADER) (ih0 : BITMAP_INFO_HEADER)
        (paths : List (Option (List Byte))),
        (getBMPFileHeader { content := content } fh0).2 = fileHeader →
        (getBMPInfoHeader (getBMPFileHeader { content := content } fh0).1 ih0).2 = infoHeader →
        loadImage fh0 ih0 (some content :: paths) = loadImage fileHeader infoHeader paths ∧
          loadImage fh0 ih0 [some content] = none) ∧
    (∀ (b0 b1 : Byte) (rest : List Byte),
      (fileHeaderOfBytes (b0 :: b1 :: rest)).HEADER_FIELD = 0x4D42 ↔ b0 = 0x42 ∧ b1 = 0x4D) := by
  refine ⟨?_, ?_, ?_, ?_⟩
  · intro h
    unfold validate BMP_FILE_SIGNATURE
    rw [if_pos h]
  · intro h1 h2
    unfold validate BMP_FILE_SIGNATURE
    rw [if_neg (by rw [h1]; exact fun h => h rfl), if_pos h2]
  · intro h content fh0 ih0 paths hf hi
    have hv : ∃ e, validate fileHeader infoHeader = some e := by
      unfold validate BMP_FILE_SIGNATURE
      by_cases hs : fileHeader.HEADER_FIELD = 0x4D42
      · have h2 : infoHeader.INFO_HEADER_SIZE ≠ 40 := by
          rcases h with h | h
          · exact absurd hs h
          · exact h
        exact ⟨_, by rw [if_neg (by rw [hs]; exact fun h => h rfl), if_pos h2]⟩
      · exact ⟨_, by rw [if_pos hs]⟩
    obtain ⟨e, he⟩ := hv
    have step : ∀ ps, validationLoop fh0 ih0 (some content :: ps) =
        validationLoop fileHeader infoHeader ps := by
      intro ps
      simp only [validationLoop, hf, hi, he]
    constructor
    · unfold loadImage
      rw [step]
    · unfold loadImage
      rw [step]
      rfl
  · intro b0 b1 rest
    have e : (fileHeaderOfBytes (b0 :: b1 :: rest)).HEADER_FIELD = b0.val + 256 * (b1.val + 256 * 0) :=
      rfl
    rw [e]
    constructor
    · intro h
      have h0 := b0.isLt
      have h1 := b1.isLt
      exact ⟨Fin.ext (by show b0.val = 66; omega), Fin.ext (by show b1.val = 77; omega)⟩
    · rintro ⟨rfl, rfl⟩
      rfl

theorem validate_signature_and_size_witness :
    validate ⟨0, 0, 0, 0, 0⟩ ⟨40, 0, 0, 0, 24, 0, 0, 0, 0, 0, 0⟩ = some .InvalidSignature ∧
    validate ⟨0x4D42, 0, 0, 0, 54⟩ ⟨108, 1, 1, 1, 24, 0, 4, 0, 0, 0, 0⟩ =
      some .UnsupportedFormat ∧
    validate ⟨0x4D42, 0, 0, 0, 54⟩ ⟨124, 1, 1, 1, 24, 0, 4, 0, 0, 0, 0⟩ =
      some .UnsupportedFormat ∧
    (loadImage ⟨0x4D42, 0, 0, 0, 54⟩ ⟨40, 1, 1, 1, 24, 0, 4, 0, 0, 0, 0⟩
        (some (List.replicate 58 0) :: []) =
      loadImage ⟨0, 0, 0, 0, 0⟩ ⟨0, 0, 0, 0, 0, 0, 0, 0, 0, 0, 0⟩ [] ∧
     loadImage ⟨0x4D42, 0, 0, 0, 54⟩ ⟨40, 1, 1, 1, 24, 0, 4, 0, 0, 0, 0⟩
        [some (List.replicate 58 0)] = none) :=
  ⟨(validate_signature_and_size _ _).1 (by decide),
   (validate_signature_and_size _ _).2.1 rfl (by decide),
   (validate_signature_and_size _ _).2.1 rfl (by decide),
   (validate_signature_and_size ⟨0, 0, 0, 0, 0⟩ ⟨0, 0, 0, 0, 0, 0, 0, 0, 0, 0, 0⟩).2.2.1
     (Or.inl (by decide)) (List.replicate 58 0) ⟨0x4D42, 0, 0, 0, 54⟩
     ⟨40, 1, 1, 1, 24, 0, 4, 0, 0, 0, 0⟩ [] (by decide) (by decide)⟩

/-- C4 (evaluation at the failing inputs). A header pair with the right
signature and info-header size 40 passes validation whatever its bit count
and compression are.  A session offered the 58-byte file with bit count 8 and
compression 1 goes on to decode it: the four data bytes of its one row of
width 4 land in the first four bytes of the row's 12-byte storage.  A session
offered the 58-byte file with bit count 32 (one row of width 1) also decodes
it, reading 4 bytes into the row's 3-byte storage. -/
theorem validate_accepts_other_depths :
    (∀ bitCount compression : Nat,
      validate ⟨0x4D42, 58, 0, 0, 54⟩ ⟨40, 4, 1, 1, bitCount, compression, 4, 0, 0, 0, 0⟩ =
        none) ∧
    loadImage ⟨0, 0, 0, 0, 0⟩ ⟨0, 0, 0, 0, 0, 0, 0, 0, 0, 0, 0⟩
      [some (fileHeaderBytes ⟨0x4D42, 58, 0, 0, 54⟩ ++
        infoHeaderBytes ⟨40, 4, 1, 1, 8, 1, 4, 0, 0, 0, 0⟩ ++ [1, 2, 3, 4])] =
      some (.ok [[⟨1, 2, 3⟩, ⟨4, 0, 0⟩, ⟨0, 0, 0⟩, ⟨0, 0, 0⟩]]) ∧
    loadImage ⟨0, 0, 0, 0, 0⟩ ⟨0, 0, 0, 0, 0, 0, 0, 0, 0, 0, 0⟩
      [some (fileHeaderBytes ⟨0x4D42, 58, 0, 0, 54⟩ ++
        infoHeaderBytes ⟨40, 1, 1, 1, 32, 0, 4, 0, 0, 0, 0⟩ ++ [1, 2, 3, 4])] =
      some (.error Fault.bufferOverrun) := by
  refine ⟨fun _ _ => rfl, by decide, by decide⟩

/-- C5. Header reconstruction on write: for every rectangular grid with
`H ≥ 1` rows of `W` pixels (sizes fitting in 32 bits), the file `writeFile`
emits starts with the memory of the two headers it builds, which have
signature 0x4D42, pixel offset 54, info-header size 40, width `W`, height `H`
(non-negative), planes 1, bit count 24, compression 0, image size `P * H`
where `P` is `3 * W` rounded up to a multiple of 4, file size
`14 + 40 + P * H`, and every reserved, resolution and palette field 0; the
emitted bytes read back as exactly these headers. -/
theorem writeFile_headers (g : PixelArray) (W : Nat) (hrect : ∀ row ∈ g, row.length = W)
    (hH : 1 ≤ g.length) (hW : W < 2 ^ 31) (hHt : g.length < 2 ^ 31)
    (hsize : 14 + 40 + (3 * W + 3) / 4 * 4 * g.length < 2 ^ 32) :
    ∃ (fh : BITMAP_FILE_HEADER) (ih : BITMAP_INFO_HEADER) (P : Nat) (pixels : List Byte),
      (fh, ih) = newHeaders W g.length ∧
      writeFile g = .ok (fileHeaderBytes fh ++ infoHeaderBytes ih ++ pixels) ∧
      fileHeaderOfBytes (fileHeaderBytes fh) = fh ∧
      infoHeaderOfBytes (infoHeaderBytes ih) = ih ∧
      4 ∣ P ∧ 3 * W ≤ P ∧ P < 3 * W + 4 ∧
      fh = { HEADER_FIELD := 0x4D42
             BMP_FILE_SIZE := 14 + 40 + P * g.length
             BMP_RESERVED_1 := 0
             BMP_RESERVED_2 := 0
             BMP_OFFSET := 54 } ∧
      ih = { INFO_HEADER_SIZE := 40
             BMP_WIDTH := (W : Int)
             BMP_HEIGHT := (g.length : Int)
             BMP_PLANES := 1
             BMP_BIT_COUNT := 24
             BMP_COMPRESSION := 0
             BMP_SIZE_IMAGE := P * g.length
             BMP_XPIXELS_PER_METER := 0
             BMP_YPIXELS_PER_METER := 0
             BMP_CLR_USED := 0
             BMP_CLR_IMPORTANT := 0 } ∧
      0 ≤ ih.BMP_HEIGHT := by
  have hn := newHeaders_eq W g.length hW hHt hsize
  have hw := writeFile_rect g W hrect hH (by omega)
  rw [hn] at hw
  refine ⟨_, _, (3 * W + 3) / 4 * 4, _, hn.symm, hw, ?_, ?_, ?_, ?_, ?_, rfl, rfl, ?_⟩
  · rw [fileHeaderOfBytes_fileHeaderBytes]
    simp only [BITMAP_FILE_HEADER.mk.injEq]
    refine ⟨by norm_num, Nat.mod_eq_of_lt hsize, by norm_num, by norm_num, by norm_num⟩
  · rw [infoHeaderOfBytes_infoHeaderBytes]
    simp only [BITMAP_INFO_HEADER.mk.injEq]
    refine ⟨by norm_num, ?_, ?_, by norm_num, by norm_num, by norm_num,
      Nat.mod_eq_of_lt (by omega), ?_, ?_, by norm_num, by norm_num⟩
    · exact toInt32_toUInt32 _ (by omega) (by omega)
    · exact toInt32_toUInt32 _ (by omega) (by omega)
    · exact toInt32_toUInt32 _ (by norm_num) (by norm_num)
    · exact toInt32_toUInt32 _ (by norm_num) (by norm_num)
  · exact Nat.dvd_mul_left 4 _
  · omega
  · omega
  · exact Int.natCast_nonneg _

theorem writeFile_headers_witness :
    (∀ row ∈ ([[⟨1, 2, 3⟩, ⟨4, 5, 6⟩]] : PixelArray), row.length = 2) ∧
    ∃ (fh : BITMAP_FILE_HEADER) (ih : BITMAP_INFO_HEADER) (P : Nat) (pixels : List Byte),
      (fh, ih) = newHeaders 2 ([[⟨1, 2, 3⟩, ⟨4, 5, 6⟩]] : PixelArray).length ∧
      writeFile [[⟨1, 2, 3⟩, ⟨4, 5, 6⟩]] =
        .ok (fileHeaderBytes fh ++ infoHeaderBytes ih ++ pixels) ∧
      fileHeaderOfBytes (fileHeaderBytes fh) = fh ∧
      infoHeaderOfBytes (infoHeaderBytes ih) = ih ∧
      4 ∣ P ∧ 3 * 2 ≤ P ∧ P < 3 * 2 + 4 ∧
      fh = { HEADER_FIELD := 0x4D42
             BMP_FILE_SIZE := 14 + 40 + P * ([[⟨1, 2, 3⟩, ⟨4, 5, 6⟩]] : PixelArray).length
             BMP_RESERVED_1 := 0
             BMP_RESERVED_2 := 0
             BMP_OFFSET := 54 } ∧
      ih = { INFO_HEADER_SIZE := 40
             BMP_WIDTH := ((2 : Nat) : Int)
             BMP_HEIGHT := ((([[⟨1, 2, 3⟩, ⟨4, 5, 6⟩]] : PixelArray).length : Nat) : Int)
             BMP_PLANES := 1
             BMP_BIT_COUNT := 24
             BMP_COMPRESSION := 0
             BMP_SIZE_IMAGE := P * ([[⟨1, 2, 3⟩, ⟨4, 5, 6⟩]] : PixelArray).length
             BMP_XPIXELS_PER_METER := 0
             BMP_YPIXELS_PER_METER := 0
             BMP_CLR_USED := 0
             BMP_CLR_IMPORTANT := 0 } ∧
      0 ≤ ih.BMP_HEIGHT :=
  ⟨by decide, writeFile_headers [[⟨1, 2, 3⟩, ⟨4, 5, 6⟩]] 2 (by decide) (by decide) (by decide)
    (by decide) (by decide)⟩

/-- C6. Encoded pixel layout: for every rectangular grid with `H ≥ 1` rows of
`W` pixels (a width whose byte count fits `size_t`, as every vector's does),
the bytes `writeFile` emits after the 54 header bytes are, for each row in
grid row order, the row's `W` pixels as 3 bytes each in blue, green, red
order, followed by exactly `P - 3 * W` zero bytes, where
`P = (3 * W + 3) & ~3` is the smallest multiple of 4 that is `≥ 3 * W`. -/
theorem writeFile_pixel_layout (g : PixelArray) (W : Nat)
    (hrect : ∀ row ∈ g, row.length = W) (hH : 1 ≤ g.length) (hW : 3 * W + 3 < 2 ^ 64) :
    ∃ (headers : List Byte) (P : Nat),
      headers.length = 54 ∧ P = paddedRowSize (3 * W) ∧
      4 ∣ P ∧ 3 * W ≤ P ∧ (∀ Q, 4 ∣ Q → 3 * W ≤ Q → P ≤ Q) ∧
      writeFile g = .ok (headers ++ g.flatMap (fun row =>
        row.flatMap (fun p => [p.b, p.g, p.r]) ++ List.replicate (P - 3 * W) (0 : Byte))) := by
  refine ⟨_, (3 * W + 3) / 4 * 4, ?_, (paddedRowSize_eq _ hW).symm, Nat.dvd_mul_left 4 _,
    by omega, ?_, writeFile_rect g W hrect hH hW⟩
  · rw [List.length_append, length_fileHeaderBytes, length_infoHeaderBytes]
  · rintro Q ⟨k, rfl⟩ hQ
    omega

theorem writeFile_pixel_layout_witness :
    (∀ row ∈ ([[⟨1, 2, 3⟩], [⟨4, 5, 6⟩]] : PixelArray), row.length = 1) ∧
    ∃ (headers : List Byte) (P : Nat),
      headers.length = 54 ∧ P = paddedRowSize (3 * 1) ∧
      4 ∣ P ∧ 3 * 1 ≤ P ∧ (∀ Q, 4 ∣ Q → 3 * 1 ≤ Q → P ≤ Q) ∧
      writeFile [[⟨1, 2, 3⟩], [⟨4, 5, 6⟩]] = .ok (headers ++
        ([[⟨1, 2, 3⟩], [⟨4, 5, 6⟩]] : PixelArray).flatMap (fun row =>
          row.flatMap (fun p => [p.b, p.g, p.r]) ++ List.replicate (P - 3 * 1) (0 : Byte))) :=
  ⟨by decide, writeFile_pixel_layout [[⟨1, 2, 3⟩], [⟨4, 5, 6⟩]] 1 (by decide) (by decide)
    (by decide)⟩

/-- C7. Involution laws: for every pixel grid `g` (rectangular or not),
flipping vertically twice, flipping horizontally twice and inverting twice
each give back `g`. -/
theorem transforms_involutive (g : PixelArray) :
    verticalFlip (verticalFlip g) = g ∧ horizonalFlip (horizonalFlip g) = g ∧
      invert (invert g) = g := by
  refine ⟨?_, ?_, ?_⟩
  · rw [verticalFlip_eq_reverse, verticalFlip_eq_reverse, List.reverse_reverse]
  · rw [horizonalFlip_eq_map_reverse, horizonalFlip_eq_map_reverse, List.map_map]
    have : (List.reverse ∘ List.reverse : PixelRow → PixelRow) = id := by
      funext row; simp
    rw [this, List.map_id]
  · unfold invert
    rw [List.map_map]
    have : ((fun row : PixelRow => row.map invertPixel) ∘ fun row => row.map invertPixel) = id := by
      funext row
      simp only [Function.comp, List.map_map, id]
      have : (invertPixel ∘ invertPixel) = id := by
        funext p; exact invertPixel_invertPixel p
      rw [this, List.map_id]
    rw [this, List.map_id]

/-- C8 (evaluation at the failing input). On the one-pixel grid with
`(r, g, b) = (0, 100, 0)` the first `grayscale` gives level 58 and the second
gives level 214; more generally `grayscale` leaves a gray pixel `(c, c, c)` as
it is only for `c = 0` and `c = 255`. -/
theorem grayscale_twice_differs :
    grayscale [[⟨0, 100, 0⟩]] = [[⟨58, 58, 58⟩]] ∧
    grayscale (grayscale [[⟨0, 100, 0⟩]]) = [[⟨214, 214, 214⟩]] ∧
    (∀ c : Byte, grayPixel ⟨c, c, c⟩ = ⟨c, c, c⟩ ↔ c = 0 ∨ c = 255) := by
  decide!

/-- C10. Flip composition: for every rectangular grid with `N` rows and `W`
columns, `verticalFlip` followed by `horizonalFlip` yields a grid of the same
shape whose pixel at `(i, j)` is the original pixel at `(N-1-i, W-1-j)`; for
the 2x2 grid row0 = red, blue; row1 = green, white the result is
row0 = white, green; row1 = blue, red. -/
theorem flip_composition (g : PixelArray) (W : Nat) (hrect : ∀ row ∈ g, row.length = W) :
    (horizonalFlip (verticalFlip g)).length = g.length ∧
    (∀ row ∈ horizonalFlip (verticalFlip g), row.length = W) ∧
    (∀ i j, i < g.length → j < W →
      ∃ p, pixelAt (horizonalFlip (verticalFlip g)) i j = some p ∧
        pixelAt g (g.length - 1 - i) (W - 1 - j) = some p) ∧
    horizonalFlip (verticalFlip
        [[⟨0, 0, 255⟩, ⟨255, 0, 0⟩], [⟨0, 255, 0⟩, ⟨255, 255, 255⟩]]) =
      [[⟨255, 255, 255⟩, ⟨0, 255, 0⟩], [⟨255, 0, 0⟩, ⟨0, 0, 255⟩]] := by
  refine ⟨?_, ?_, ?_, by decide⟩
  · rw [horizonalFlip_eq_map_reverse, verticalFlip_eq_reverse]; simp
  · intro row hrow
    rw [horizonalFlip_eq_map_reverse, verticalFlip_eq_reverse] at hrow
    simp only [List.mem_map, List.mem_reverse] at hrow
    obtain ⟨r, hr, rfl⟩ := hrow
    rw [List.length_reverse]; exact hrect r hr
  · intro i j hi hj
    rw [pixelAt_flips g W hrect i j hi hj]
    have hi2 : g.length - 1 - i < g.length := by omega
    have hlen : (g[g.length - 1 - i]).length = W := hrect _ (List.getElem_mem _)
    have hj2 : W - 1 - j < (g[g.length - 1 - i]).length := by omega
    have key : pixelAt g (g.length - 1 - i) (W - 1 - j) =
        some ((g[g.length - 1 - i])[W - 1 - j]) := by
      unfold pixelAt
      rw [List.getElem?_eq_getElem hi2, Option.some_bind, List.getElem?_eq_getElem hj2]
    exact ⟨_, key, key⟩

theorem flip_composition_witness :
    ∃ p, pixelAt (horizonalFlip (verticalFlip
        [[⟨0, 0, 255⟩, ⟨255, 0, 0⟩], [⟨0, 255, 0⟩, ⟨255, 255, 255⟩]])) 0 1 = some p ∧
      pixelAt [[⟨0, 0, 255⟩, ⟨255, 0, 0⟩], [⟨0, 255, 0⟩, ⟨255, 255, 255⟩]] (2 - 1 - 0) (2 - 1 - 1)
        = some p :=
  (flip_composition [[⟨0, 0, 255⟩, ⟨255, 0, 0⟩], [⟨0, 255, 0⟩, ⟨255, 255, 255⟩]] 2
    (by decide)).2.2.1 0 1 (by decide) (by decide)

/-- C11 (evaluation at the failing input). The header pair with signature
0x4D42, info-header size 40, bit count 24, width 1 and height -1 (a top-down
image of one row) passes validation, and `getPixelArray` then fails on every
stream: the vector of rows is constructed with the count -1, which raises
`std::length_error`, so no grid of `|-1| = 1` row is returned. -/
theorem getPixelArray_negative_height :
    validate ⟨0x4D42, 58, 0, 0, 54⟩ ⟨40, 1, -1, 1, 24, 0, 4, 0, 0, 0, 0⟩ = none ∧
    (∀ file : IFStream,
      getPixelArray file ⟨0x4D42, 58, 0, 0, 54⟩ ⟨40, 1, -1, 1, 24, 0, 4, 0, 0, 0, 0⟩ =
        .error Fault.lengthError) ∧
    loadImage ⟨0, 0, 0, 0, 0⟩ ⟨0, 0, 0, 0, 0, 0, 0, 0, 0, 0, 0⟩
      [some (fileHeaderBytes ⟨0x4D42, 58, 0, 0, 54⟩ ++
        infoHeaderBytes ⟨40, 1, -1, 1, 24, 0, 4, 0, 0, 0, 0⟩ ++ [1, 2, 3, 0])] =
      some (.error Fault.lengthError) := by
  refine ⟨rfl, fun _ => rfl, by decide⟩

/-- C12 (counterexample). The 68-byte file with headers for a 24-bit image of
width 4 and height 3 and only 14 of the 36 pixel bytes is shorter than its
geometry implies, yet decoding it returns a grid: row 0 is read in full, row 1
keeps the two bytes that are there, and everything else is zero. -/
theorem truncated_stream_decodes :
    validate ⟨0x4D42, 90, 0, 0, 54⟩ ⟨40, 4, 3, 1, 24, 0, 36, 0, 0, 0, 0⟩ = none ∧
    (fileHeaderBytes ⟨0x4D42, 90, 0, 0, 54⟩ ++
      infoHeaderBytes ⟨40, 4, 3, 1, 24, 0, 36, 0, 0, 0, 0⟩ ++
      [1, 2, 3, 4, 5, 6, 7, 8, 9, 10, 11, 12, 13, 14]).length < 54 + 12 * 1 + 3 * 4 ∧
    decodeFile (fileHeaderBytes ⟨0x4D42, 90, 0, 0, 54⟩ ++
      infoHeaderBytes ⟨40, 4, 3, 1, 24, 0, 36, 0, 0, 0, 0⟩ ++
      [1, 2, 3, 4, 5, 6, 7, 8, 9, 10, 11, 12, 13, 14])
      ⟨0, 0, 0, 0, 0⟩ ⟨0, 0, 0, 0, 0, 0, 0, 0, 0, 0, 0⟩ =
      .ok [[⟨1, 2, 3⟩, ⟨4, 5, 6⟩, ⟨7, 8, 9⟩, ⟨10, 11, 12⟩],
           [⟨13, 14, 0⟩, ⟨0, 0, 0⟩, ⟨0, 0, 0⟩, ⟨0, 0, 0⟩],
           [⟨0, 0, 0⟩, ⟨0, 0, 0⟩, ⟨0, 0, 0⟩, ⟨0, 0, 0⟩]] := by
  decide

/-- C12 (amended). A truncated stream is not an error: for every header pair
with bit count 24, height `H ≥ 0` and width `W ≥ 0` (the `int` products of the
source being representable) and every stream, however short and in whatever
state, `getPixelArray` returns a grid of `H` rows of `W` pixels.  With
`S = 4 * (24 * W / 32)` the stride, byte `m` of row `i` (blue, green, red of
pixel `j` are bytes `3 * j`, `3 * j + 1`, `3 * j + 2`) is the file byte at
`(offset + S * i) mod 2 ^ 32 + m` when the stream had not failed on entry, the
file holds every earlier row whole and reaches that far; every other byte
is 0.  When `W > 0` and the `3 * W` bytes of some row run past the end of the
file, the stream comes back with `failbit` set. -/
theorem getPixelArray_truncated (file : IFStream) (fh : BITMAP_FILE_HEADER)
    (ih : BITMAP_INFO_HEADER) (W H : Nat) (hb : ih.BMP_BIT_COUNT = 24)
    (hw : ih.BMP_WIDTH = (W : Int)) (hh : ih.BMP_HEIGHT = (H : Int))
    (hbits : 24 * W < 2 ^ 31) (hskip : ∀ i, i < H → 4 * (24 * W / 32) * i < 2 ^ 31) :
    ∃ file' grid, getPixelArray file fh ih = .ok (file', grid) ∧ grid.length = H ∧
      (∀ row ∈ grid, row.length = W) ∧
      ((∃ i, i < H ∧ 0 < W ∧
          file.content.length < (fh.BMP_OFFSET + 4 * (24 * W / 32) * i) % 2 ^ 32 + 3 * W) →
        file'.failbit = true) ∧
      ∃ B : Nat → Nat → Byte,
        (∀ i m, B i m =
          if file.failbit = false ∧ (∀ k, k < i →
              (fh.BMP_OFFSET + 4 * (24 * W / 32) * k) % 2 ^ 32 + 3 * W ≤ file.content.length)
          then file.content.getD ((fh.BMP_OFFSET + 4 * (24 * W / 32) * i) % 2 ^ 32 + m) 0
          else 0) ∧
        ∀ i j, i < H → j < W →
          pixelAt grid i j = some ⟨B i (3 * j), B i (3 * j + 1), B i (3 * j + 2)⟩ := by
  have hS : 24 * W / 32 * 4 = 4 * (24 * W / 32) := Nat.mul_comm _ _
  have hskip' : ∀ k, k < H → 24 * W / 32 * 4 * (0 + k) < 2 ^ 31 := by
    intro k hk
    rw [Nat.zero_add, hS]
    exact hskip k hk
  obtain ⟨file', grid, e, l, r, _, _, t⟩ :=
    readRows_shape fh.BMP_OFFSET (24 * W / 32 * 4) W (by omega) H 0 file hskip'
  have eg := getPixelArray_eq file fh ih W H hb hw hh hbits
  refine ⟨file', grid, by rw [eg]; exact e, l, r, ?_, ?_⟩
  · rintro ⟨i, hi, hW, hlen⟩
    apply t
    refine ⟨i, hi, hW, ?_⟩
    rw [Nat.zero_add, hS]
    exact hlen
  · refine ⟨fun i m =>
      if file.failbit = false ∧ (∀ k, k < i →
          (fh.BMP_OFFSET + 4 * (24 * W / 32) * k) % 2 ^ 32 + 3 * W ≤ file.content.length)
      then file.content.getD ((fh.BMP_OFFSET + 4 * (24 * W / 32) * i) % 2 ^ 32 + m) 0
      else 0, fun _ _ => rfl, ?_⟩
    intro i j hi hj
    have hW : 0 < W := by omega
    obtain ⟨f2, e2⟩ :=
      readRows_content fh.BMP_OFFSET (24 * W / 32 * 4) W (by omega) hW H 0 file hskip'
    rw [e] at e2
    have hg := congrArg Prod.snd (Except.ok.inj e2)
    simp only at hg
    rw [hg]
    unfold pixelAt
    rw [List.getElem?_map, List.getElem?_range hi]
    simp only [Option.map_some', Option.some_bind, Nat.zero_add, hS]
    obtain ⟨p, h0, h1, h2, h3⟩ := getElem?_pixelsOfBytes j
      ((List.range (3 * W)).map (fun m =>
        if file.failbit = false ∧ (∀ k', k' < i →
            (fh.BMP_OFFSET + 4 * (24 * W / 32) * k') % 2 ^ 32 + 3 * W ≤ file.content.length)
        then file.content.getD ((fh.BMP_OFFSET + 4 * (24 * W / 32) * i) % 2 ^ 32 + m) 0
        else 0))
      (by rw [List.length_map, List.length_range]; omega)
    rw [List.getElem?_map, List.getElem?_range (by omega)] at h1 h2 h3
    simp only [Option.map_some', Option.some.injEq] at h1 h2 h3
    rw [h0]
    cases p
    simp only at h1 h2 h3
    rw [h1, h2, h3]

theorem getPixelArray_truncated_witness :
    ∃ file' grid,
      getPixelArray { content := List.replicate 54 0 ++ [1, 2] }
        ⟨0x4D42, 58, 0, 0, 54⟩ ⟨40, 1, 1, 1, 24, 0, 4, 0, 0, 0, 0⟩ = .ok (file', grid) ∧
      grid.length = 1 ∧ (∀ row ∈ grid, row.length = 1) ∧
      ((∃ i, i < 1 ∧ 0 < 1 ∧
          (List.replicate 54 (0 : Byte) ++ [1, 2]).length <
            (54 + 4 * (24 * 1 / 32) * i) % 2 ^ 32 + 3 * 1) →
        file'.failbit = true) ∧
      ∃ B : Nat → Nat → Byte,
        (∀ i m, B i m =
          if false = false ∧ (∀ k, k < i →
              (54 + 4 * (24 * 1 / 32) * k) % 2 ^ 32 + 3 * 1 ≤
                (List.replicate 54 (0 : Byte) ++ [1, 2]).length)
          then (List.replicate 54 (0 : Byte) ++ [1, 2]).getD
            ((54 + 4 * (24 * 1 / 32) * i) % 2 ^ 32 + m) 0
          else 0) ∧
        ∀ i j, i < 1 → j < 1 →
          pixelAt grid i j = some ⟨B i (3 * j), B i (3 * j + 1), B i (3 * j + 2)⟩ :=
  getPixelArray_truncated { content := List.replicate 54 0 ++ [1, 2] }
    ⟨0x4D42, 58, 0, 0, 54⟩ ⟨40, 1, 1, 1, 24, 0, 4, 0, 0, 0, 0⟩ 1 1 rfl rfl rfl
    (by decide) (by decide)

/-- C13. `verticalFlip` reverses the row order: for every grid with `N` rows,
after `verticalFlip` there are still `N` rows and row `i` is the original row
`N - 1 - i` for every `i < N`, with its contents unchanged; for odd `N` the
middle row stays in place. -/
theorem verticalFlip_rows (g : PixelArray) :
    (verticalFlip g).length = g.length ∧
    (∀ i, i < g.length → (verticalFlip g)[i]? = g[g.length - 1 - i]?) ∧
    (∀ m, g.length = 2 * m + 1 → (verticalFlip g)[m]? = g[m]?) := by
  rw [verticalFlip_eq_reverse]
  refine ⟨List.length_reverse g, fun i hi => List.getElem?_reverse hi, fun m hm => ?_⟩
  rw [List.getElem?_reverse (by omega), show g.length - 1 - m = m by omega]

theorem verticalFlip_rows_witness :
    (verticalFlip [[⟨1, 2, 3⟩], [⟨4, 5, 6⟩], [⟨7, 8, 9⟩]])[0]? =
      ([[⟨1, 2, 3⟩], [⟨4, 5, 6⟩], [⟨7, 8, 9⟩]] : PixelArray)[3 - 1 - 0]? ∧
    (verticalFlip [[⟨1, 2, 3⟩], [⟨4, 5, 6⟩], [⟨7, 8, 9⟩]])[1]? =
      ([[⟨1, 2, 3⟩], [⟨4, 5, 6⟩], [⟨7, 8, 9⟩]] : PixelArray)[1]? :=
  ⟨(verticalFlip_rows [[⟨1, 2, 3⟩], [⟨4, 5, 6⟩], [⟨7, 8, 9⟩]]).2.1 0 (by decide),
   (verticalFlip_rows [[⟨1, 2, 3⟩], [⟨4, 5, 6⟩], [⟨7, 8, 9⟩]]).2.2 1 (by decide)⟩

/-- C14. `horizonalFlip` reverses every row: for every grid, after
`horizonalFlip` the rows are in the same order and have the same lengths, and
each row of length `W` has at column `j` the original pixel of the same row at
column `W - 1 - j`. -/
theorem horizonalFlip_rows (g : PixelArray) :
    (horizonalFlip g).length = g.length ∧
    (∀ (i : Nat) (row : PixelRow), g[i]? = some row →
      ∃ row' : PixelRow, (horizonalFlip g)[i]? = some row' ∧ row'.length = row.length ∧
        ∀ j, j < row.length → row'[j]? = row[row.length - 1 - j]?) := by
  rw [horizonalFlip_eq_map_reverse]
  refine ⟨List.length_map _ _, fun i row hrow => ?_⟩
  refine ⟨row.reverse, ?_, List.length_reverse row, fun j hj => List.getElem?_reverse hj⟩
  rw [List.getElem?_map, hrow]
  rfl

theorem horizonalFlip_rows_witness :
    ∃ row' : PixelRow, (horizonalFlip [[⟨1, 2, 3⟩, ⟨4, 5, 6⟩, ⟨7, 8, 9⟩]])[0]? = some row' ∧
      row'.length = ([⟨1, 2, 3⟩, ⟨4, 5, 6⟩, ⟨7, 8, 9⟩] : PixelRow).length ∧
      ∀ j, j < ([⟨1, 2, 3⟩, ⟨4, 5, 6⟩, ⟨7, 8, 9⟩] : PixelRow).length →
        row'[j]? = ([⟨1, 2, 3⟩, ⟨4, 5, 6⟩, ⟨7, 8, 9⟩] : PixelRow)[
          ([⟨1, 2, 3⟩, ⟨4, 5, 6⟩, ⟨7, 8, 9⟩] : PixelRow).length - 1 - j]? :=
  (horizonalFlip_rows [[⟨1, 2, 3⟩, ⟨4, 5, 6⟩, ⟨7, 8, 9⟩]]).2 0
    [⟨1, 2, 3⟩, ⟨4, 5, 6⟩, ⟨7, 8, 9⟩] rfl

/-- C15. `invert` complements every channel: for every grid, after `invert`
the grid has the same shape and the pixel at each position `(r, g, b)` is
`(255 - r, 255 - g, 255 - b)`, each result lying in `0..255` with no
wrap-around. -/
theorem invert_complements (g : PixelArray) :
    (invert g).map List.length = g.map List.length ∧
    (∀ i j, pixelAt (invert g) i j = (pixelAt g i j).map invertPixel) ∧
    (∀ p : OPAQUE_COLOR_24_PIXEL,
      ((invertPixel p).r.val : Int) = 255 - p.r.val ∧
      ((invertPixel p).g.val : Int) = 255 - p.g.val ∧
      ((invertPixel p).b.val : Int) = 255 - p.b.val ∧
      (invertPixel p).r.val ≤ 255 ∧ (invertPixel p).g.val ≤ 255 ∧
      (invertPixel p).b.val ≤ 255) := by
  refine ⟨?_, fun i j => pixelAt_map invertPixel g i j, fun p => ?_⟩
  · unfold invert
    rw [List.map_map]
    apply List.map_congr_left
    intro row _
    simp
  · obtain ⟨h1, h2, h3⟩ := invertPixel_val p
    have hr := p.r.isLt
    have hg := p.g.isLt
    have hb := p.b.isLt
    rw [h1, h2, h3]
    refine ⟨?_, ?_, ?_, ?_, ?_, ?_⟩ <;> omega

/-- C16. Decode addressing: for every header pair with bit count 24, height
`H ≥ 0` and width `W ≥ 0` and every stream in good state whose file (shorter
than 4 GiB) holds all the rows, the `int` products of the source being
representable, `getPixelArray` returns a grid of `H` rows whose pixel `(i, j)`
has blue, green, red equal to the file bytes at `offset + i * S + 3 * j`, `+ 1`
and `+ 2`, where `S = 4 * ⌊24 * W / 32⌋`; row 0 is the row stored first and
the bytes between `3 * W` and `S` are not looked at. -/
theorem getPixelArray_addressing (file : IFStream) (fh : BITMAP_FILE_HEADER)
    (ih : BITMAP_INFO_HEADER) (W H : Nat) (hb : ih.BMP_BIT_COUNT = 24)
    (hw : ih.BMP_WIDTH = (W : Int)) (hh : ih.BMP_HEIGHT = (H : Int))
    (hf : file.failbit = false) (hbits : 24 * W < 2 ^ 31)
    (hlen : file.content.length < 2 ^ 32)
    (hrows : ∀ i, i < H → 4 * (24 * W / 32) * i < 2 ^ 31 ∧
      fh.BMP_OFFSET + 4 * (24 * W / 32) * i + 3 * W ≤ file.content.length) :
    ∃ file' grid, getPixelArray file fh ih = .ok (file', grid) ∧ grid.length = H ∧
      ∀ i j, i < H → j < W →
        ∃ p, pixelAt grid i j = some p ∧
          file.content[fh.BMP_OFFSET + 4 * (24 * W / 32) * i + 3 * j]? = some p.b ∧
          file.content[fh.BMP_OFFSET + 4 * (24 * W / 32) * i + 3 * j + 1]? = some p.g ∧
          file.content[fh.BMP_OFFSET + 4 * (24 * W / 32) * i + 3 * j + 2]? = some p.r := by
  have hS : 24 * W / 32 * 4 = 4 * (24 * W / 32) := Nat.mul_comm _ _
  obtain ⟨file', e⟩ := readRows_good fh.BMP_OFFSET (24 * W / 32 * 4) W (by omega) file.content
    hlen H 0 file rfl hf (by
      intro k hk
      rw [Nat.zero_add, hS]
      exact hrows k hk)
  rw [← getPixelArray_eq file fh ih W H hb hw hh hbits] at e
  refine ⟨file', _, e, by rw [List.length_map, List.length_range], ?_⟩
  intro i j hi hj
  obtain ⟨_, hfit⟩ := hrows i hi
  have hwin : ((file.content.drop (fh.BMP_OFFSET + 4 * (24 * W / 32) * i)).take (3 * W)).length
      = 3 * W := by
    rw [List.length_take, List.length_drop]
    omega
  obtain ⟨p, h0, h1, h2, h3⟩ := getElem?_pixelsOfBytes j
    ((file.content.drop (fh.BMP_OFFSET + 4 * (24 * W / 32) * i)).take (3 * W)) (by omega)
  rw [getElem?_window _ _ _ _ (by omega)] at h1 h2 h3
  refine ⟨p, ?_, h1, ?_, ?_⟩
  · unfold pixelAt
    rw [List.getElem?_map, List.getElem?_range hi]
    simp only [Option.map_some', Option.some_bind, Nat.zero_add, hS]
    exact h0
  · rw [Nat.add_assoc]; exact h2
  · rw [Nat.add_assoc]; exact h3

theorem getPixelArray_addressing_witness :
    ∃ file' grid,
      getPixelArray { content := List.replicate 54 0 ++ [1, 2, 3, 4, 5, 6, 0, 0, 7, 8, 9, 10, 11, 12] }
        ⟨0x4D42, 70, 0, 0, 54⟩ ⟨40, 2, 2, 1, 24, 0, 16, 0, 0, 0, 0⟩ = .ok (file', grid) ∧
      grid.length = 2 ∧
      ∀ i j, i < 2 → j < 2 →
        ∃ p, pixelAt grid i j = some p ∧
          (List.replicate 54 (0 : Byte) ++ [1, 2, 3, 4, 5, 6, 0, 0, 7, 8, 9, 10, 11, 12])[
            54 + 4 * (24 * 2 / 32) * i + 3 * j]? = some p.b ∧
          (List.replicate 54 (0 : Byte) ++ [1, 2, 3, 4, 5, 6, 0, 0, 7, 8, 9, 10, 11, 12])[
            54 + 4 * (24 * 2 / 32) * i + 3 * j + 1]? = some p.g ∧
          (List.replicate 54 (0 : Byte) ++ [1, 2, 3, 4, 5, 6, 0, 0, 7, 8, 9, 10, 11, 12])[
            54 + 4 * (24 * 2 / 32) * i + 3 * j + 2]? = some p.r :=
  getPixelArray_addressing
    { content := List.replicate 54 0 ++ [1, 2, 3, 4, 5, 6, 0, 0, 7, 8, 9, 10, 11, 12] }
    ⟨0x4D42, 70, 0, 0, 54⟩ ⟨40, 2, 2, 1, 24, 0, 16, 0, 0, 0, 0⟩ 2 2 rfl rfl rfl rfl
    (by decide) (by decide) (by decide)

/-- C17. Shape preservation and totality of the transforms: for every grid
(the zero-row grid and grids with empty rows included) the swap loops of
`verticalFlip` and `horizonalFlip` use no subscript that is out of range
(`grayscale` and `invert` use none at all), and each of `grayscale`, `invert`,
`verticalFlip` and `horizonalFlip` returns a grid with the same number of rows
and the same multiset of row lengths, so that a rectangular grid stays
rectangular with the same width and height; on the empty grid each is a
no-op. -/
theorem transforms_preserve_shape (g : PixelArray) :
    verticalFlipChecked g = .ok (verticalFlip g) ∧
    horizonalFlipChecked g = .ok (horizonalFlip g) ∧
    (∀ f ∈ [grayscale, invert, verticalFlip, horizonalFlip],
      (f g).length = g.length ∧
      (((f g).map List.length : List Nat) : Multiset Nat) =
        ((g.map List.length : List Nat) : Multiset Nat) ∧
      (∀ W, (∀ row ∈ g, row.length = W) → ∀ row ∈ f g, row.length = W) ∧
      f [] = []) := by
  refine ⟨swapLoopChecked_eq g, horizonalFlipChecked_eq g, ?_⟩
  intro f hf
  simp only [List.mem_cons, List.mem_singleton, List.not_mem_nil, or_false] at hf
  have key : ((f g).map List.length).Perm (g.map List.length) ∧ f [] = [] := by
    rcases hf with rfl | rfl | rfl | rfl
    · exact ⟨by rw [grayscale, map_length_map], rfl⟩
    · exact ⟨by rw [invert, map_length_map], rfl⟩
    · refine ⟨?_, rfl⟩
      rw [verticalFlip_eq_reverse, List.map_reverse]
      exact List.reverse_perm _
    · refine ⟨?_, rfl⟩
      rw [horizonalFlip_eq_map_reverse, List.map_map]
      have : (List.length ∘ List.reverse : PixelRow → Nat) = List.length := by
        funext row; simp
      rw [this]
  obtain ⟨h1, h2, h3⟩ := shape_of_perm g (f g) key.1
  exact ⟨h1, h2, h3, key.2⟩

theorem transforms_preserve_shape_witness :
    ∀ row ∈ verticalFlip [[⟨1, 2, 3⟩, ⟨4, 5, 6⟩], [⟨7, 8, 9⟩, ⟨1, 1, 1⟩], [⟨0, 0, 0⟩, ⟨2, 2, 2⟩]],
      row.length = 2 :=
  ((transforms_preserve_shape
      [[⟨1, 2, 3⟩, ⟨4, 5, 6⟩], [⟨7, 8, 9⟩, ⟨1, 1, 1⟩], [⟨0, 0, 0⟩, ⟨2, 2, 2⟩]]).2.2
    verticalFlip (by simp)).2.2.1 2 (by decide)

/-- C18. The decoder's stride `4 * ⌊24 * w / 32⌋` equals the encoder's padded
row size `(3 * w + 3) & ~3` exactly when `w` is a multiple of 4; consequently
decoding what `writeFile` emits gives back the grid for every rectangular grid
whose width is a positive multiple of 4 (any height `≥ 1`) and for every grid
with a single row of any positive width, the sizes fitting the 32-bit header
fields and the `int` arithmetic of `getPixelArray`. -/
theorem roundtrip_aligned (g : PixelArray) (W : Nat) (hrect : ∀ row ∈ g, row.length = W)
    (hH : 1 ≤ g.length) (hW : 0 < W) (hcase : 4 ∣ W ∨ g.length = 1)
    (hbits : 24 * W < 2 ^ 31) (hskip : (3 * W + 3) / 4 * 4 * (g.length - 1) < 2 ^ 31)
    (hsize : 14 + 40 + (3 * W + 3) / 4 * 4 * g.length < 2 ^ 32)
    (fh0 : BITMAP_FILE_HEADER) (ih0 : BITMAP_INFO_HEADER) :
    (∀ w : Nat, 24 * w < 2 ^ 31 →
      (rowSize 24 (w : Int) = .ok ((paddedRowSize (3 * w) : Nat) : Int) ↔ 4 ∣ w)) ∧
    ∃ bytes, writeFile g = .ok bytes ∧ decodeFile bytes fh0 ih0 = .ok g := by
  constructor
  · intro w hw
    rw [rowSize_24 w hw, paddedRowSize_eq _ (by omega), ← stride_eq_iff]
    constructor
    · intro h
      have := Except.ok.inj h
      exact_mod_cast this
    · intro h
      rw [h]
  · have hHt : g.length < 2 ^ 31 := by
      have : 4 ≤ (3 * W + 3) / 4 * 4 := by omega
      by_contra hc
      have h1 : 2 ^ 31 - 1 ≤ g.length - 1 := by omega
      have h2 : 4 * (2 ^ 31 - 1) ≤ (3 * W + 3) / 4 * 4 * (g.length - 1) :=
        Nat.mul_le_mul this h1
      omega
    have hWt : W < 2 ^ 31 := by omega
    refine ⟨_, writeFile_rect g W hrect hH (by omega), ?_⟩
    set pad : List Byte := List.replicate ((3 * W + 3) / 4 * 4 - 3 * W) (0 : Byte) with hpaddef
    have hpad : 3 * W + pad.length = (3 * W + 3) / 4 * 4 := by
      rw [hpaddef, List.length_replicate]; omega
    set data := g.flatMap (fun row => rowBytes row ++ pad) with hdatadef
    have hdata : data.length = (3 * W + 3) / 4 * 4 * g.length :=
      length_pixelData W _ pad hpad g hrect
    obtain ⟨t1, t2, t3⟩ := take_headers (fileHeaderBytes (newHeaders W g.length).1)
      (infoHeaderBytes (newHeaders W g.length).2) data
      (length_fileHeaderBytes _) (length_infoHeaderBytes _)
    obtain ⟨r1, r2⟩ := newHeaders_read_back W g.length hWt hHt hsize
    have hlen : (fileHeaderBytes (newHeaders W g.length).1 ++
        infoHeaderBytes (newHeaders W g.length).2 ++ data).length =
        54 + (3 * W + 3) / 4 * 4 * g.length := by
      rw [List.length_append, List.length_append, length_fileHeaderBytes,
        length_infoHeaderBytes, hdata]
    rw [decodeFile_full _ (by rw [hlen]; omega), t1, t2, r1, r2]
    have hn := newHeaders_eq W g.length hWt hHt hsize
    have hoff : (newHeaders W g.length).1.BMP_OFFSET = 54 := by rw [hn]
    -- the strides agree on every row index that is used
    have hstride : ∀ k, k < g.length →
        24 * W / 32 * 4 * (0 + k) = (3 * W + 3) / 4 * 4 * k := by
      intro k hk
      rw [Nat.zero_add]
      rcases hcase with h4 | h1
      · rw [(stride_eq_iff W).mpr h4]
      · have : k = 0 := by omega
        rw [this, Nat.mul_zero, Nat.mul_zero]
    have hmul : ∀ k, k < g.length →
        (3 * W + 3) / 4 * 4 * k ≤ (3 * W + 3) / 4 * 4 * (g.length - 1) :=
      fun k hk => Nat.mul_le_mul_left _ (by omega)
    have hmul2 : ∀ k, k < g.length →
        (3 * W + 3) / 4 * 4 * k + (3 * W + 3) / 4 * 4 ≤ (3 * W + 3) / 4 * 4 * g.length := by
      intro k hk
      have : (3 * W + 3) / 4 * 4 * (k + 1) ≤ (3 * W + 3) / 4 * 4 * g.length :=
        Nat.mul_le_mul_left _ (by omega)
      rw [Nat.mul_succ] at this
      exact this
    obtain ⟨file', e⟩ := readRows_good 54 (24 * W / 32 * 4) W (by omega)
      (fileHeaderBytes (newHeaders W g.length).1 ++
        infoHeaderBytes (newHeaders W g.length).2 ++ data)
      (by rw [hlen]; omega) g.length 0
      { content := fileHeaderBytes (newHeaders W g.length).1 ++
          infoHeaderBytes (newHeaders W g.length).2 ++ data, pos := 54 } rfl rfl (by
        intro k hk
        rw [hstride k hk, hlen]
        have := hmul k hk
        have := hmul2 k hk
        constructor <;> omega)
    rw [getPixelArray_eq _ _ _ W g.length (by rw [hn]) (by rw [hn]) (by rw [hn]) hbits, hoff, e]
    show Except.ok _ = Except.ok g
    congr 1
    apply List.ext_getElem
    · rw [List.length_map, List.length_range]
    · intro k h1 h2
      rw [List.getElem_map, List.getElem_range]
      rw [hstride k h2]
      have hdrop : (fileHeaderBytes (newHeaders W g.length).1 ++
          infoHeaderBytes (newHeaders W g.length).2 ++ data).drop
            (54 + (3 * W + 3) / 4 * 4 * k) = data.drop ((3 * W + 3) / 4 * 4 * k) := by
        have h54 : (fileHeaderBytes (newHeaders W g.length).1 ++
            infoHeaderBytes (newHeaders W g.length).2).length = 54 := by
          rw [List.length_append, length_fileHeaderBytes, length_infoHeaderBytes]
        rw [← h54, List.drop_append]
      rw [hdrop, hdatadef, window_pixelData W _ pad hpad g k h2 hrect, pixelsOfBytes_rowBytes]

theorem roundtrip_aligned_witness :
    (∀ w : Nat, 24 * w < 2 ^ 31 →
      (rowSize 24 (w : Int) = .ok ((paddedRowSize (3 * w) : Nat) : Int) ↔ 4 ∣ w)) ∧
    ∃ bytes, writeFile [[⟨1, 2, 3⟩, ⟨4, 5, 6⟩, ⟨7, 8, 9⟩]] = .ok bytes ∧
      decodeFile bytes ⟨0, 0, 0, 0, 0⟩ ⟨0, 0, 0, 0, 0, 0, 0, 0, 0, 0, 0⟩ =
        .ok [[⟨1, 2, 3⟩, ⟨4, 5, 6⟩, ⟨7, 8, 9⟩]] :=
  roundtrip_aligned [[⟨1, 2, 3⟩, ⟨4, 5, 6⟩, ⟨7, 8, 9⟩]] 3 (by decide) (by decide) (by decide)
    (Or.inr rfl) (by decide) (by decide) (by decide) ⟨0, 0, 0, 0, 0⟩
    ⟨0, 0, 0, 0, 0, 0, 0, 0, 0, 0, 0⟩

/-- C19. The size fields `writeFile` writes agree with what it emits: for
every rectangular grid with at least one row (sizes fitting in 32 bits), the
total number of bytes emitted equals the file-size field of the emitted file
header, and the number of bytes emitted after byte 54 equals the image-size
field of the emitted info header. -/
theorem writeFile_size_fields (g : PixelArray) (W : Nat) (hrect : ∀ row ∈ g, row.length = W)
    (hH : 1 ≤ g.length) (hW : W < 2 ^ 31) (hHt : g.length < 2 ^ 31)
    (hsize : 14 + 40 + (3 * W + 3) / 4 * 4 * g.length < 2 ^ 32) :
    ∃ bytes, writeFile g = .ok bytes ∧
      bytes.length = (fileHeaderOfBytes (bytes.take 14)).BMP_FILE_SIZE ∧
      (bytes.drop 54).length = (infoHeaderOfBytes ((bytes.drop 14).take 40)).BMP_SIZE_IMAGE ∧
      fileHeaderOfBytes (bytes.take 14) = (newHeaders W g.length).1 ∧
      infoHeaderOfBytes ((bytes.drop 14).take 40) = (newHeaders W g.length).2 := by
  refine ⟨_, writeFile_rect g W hrect hH (by omega), ?_⟩
  obtain ⟨t1, t2, t3⟩ := take_headers (fileHeaderBytes (newHeaders W g.length).1)
    (infoHeaderBytes (newHeaders W g.length).2)
    (g.flatMap (fun row => rowBytes row ++
      List.replicate ((3 * W + 3) / 4 * 4 - 3 * W) (0 : Byte)))
    (length_fileHeaderBytes _) (length_infoHeaderBytes _)
  obtain ⟨r1, r2⟩ := newHeaders_read_back W g.length hW hHt hsize
  have hdata := length_pixelData W ((3 * W + 3) / 4 * 4)
    (List.replicate ((3 * W + 3) / 4 * 4 - 3 * W) (0 : Byte))
    (by rw [List.length_replicate]; omega) g hrect
  rw [t1, t2, t3, r1, r2]
  refine ⟨?_, ?_, rfl, rfl⟩
  · rw [List.length_append, List.length_append, length_fileHeaderBytes,
      length_infoHeaderBytes, hdata, newHeaders_eq W g.length hW hHt hsize]
  · rw [hdata, newHeaders_eq W g.length hW hHt hsize]

theorem writeFile_size_fields_witness :
    ∃ bytes, writeFile [[⟨1, 2, 3⟩], [⟨4, 5, 6⟩]] = .ok bytes ∧
      bytes.length = (fileHeaderOfBytes (bytes.take 14)).BMP_FILE_SIZE ∧
      (bytes.drop 54).length = (infoHeaderOfBytes ((bytes.drop 14).take 40)).BMP_SIZE_IMAGE ∧
      fileHeaderOfBytes (bytes.take 14) =
        (newHeaders 1 ([[⟨1, 2, 3⟩], [⟨4, 5, 6⟩]] : PixelArray).length).1 ∧
      infoHeaderOfBytes ((bytes.drop 14).take 40) =
        (newHeaders 1 ([[⟨1, 2, 3⟩], [⟨4, 5, 6⟩]] : PixelArray).length).2 :=
  writeFile_size_fields [[⟨1, 2, 3⟩], [⟨4, 5, 6⟩]] 1 (by decide) (by decide) (by decide)
    (by decide) (by decide)

/-- C20 (counterexample). A file whose header gives width 5 and height 0 is
loaded as the zero-row grid; saving that grid faults at `pixelArray[0]`, yet
the call leaves an output file behind: the constructor of `outfile` has created
it, and it holds 0 bytes. -/
theorem save_height_zero_leaves_file :
    (getPixelArray { content := List.replicate 54 0 } ⟨0x4D42, 54, 0, 0, 54⟩
        ⟨40, 5, 0, 1, 24, 0, 0, 0, 0, 0, 0⟩).map Prod.snd = .ok [] ∧
    writeFile [] = .error Fault.outOfRange ∧
    writeFileOutcome [] = (some [], some Fault.outOfRange) ∧
    (getPixelArray { content := List.replicate 54 0 } ⟨0x4D42, 54, 0, 0, 54⟩
        ⟨40, 5, 0, 1, 24, 0, 0, 0, 0, 0, 0⟩).map (fun r => (writeFileOutcome r.2).1) =
      .ok (some []) := by
  decide

/-- C20 (amended). `writeFile` takes the width from row 0 unconditionally: for
every rectangular grid with at least one row (a width whose byte count fits
`size_t`) every subscript and block read it makes is in range, it returns the
file content and leaves the output file holding exactly that content, whereas
for the zero-row grid the access to row 0 is out of range.  The output file is
created before that access, so the fault leaves a file of 0 bytes.  A header
with height 0 makes `getPixelArray` return the zero-row grid (when the stride
is representable), so loading and then saving a height-0 image yields no file
content but does leave an empty file. -/
theorem writeFile_row0 (g : PixelArray) (W : Nat) (hrect : ∀ row ∈ g, row.length = W)
    (hH : 1 ≤ g.length) (hW : 3 * W + 3 < 2 ^ 64) :
    (∃ bytes, writeFile g = .ok bytes ∧ writeFileOutcome g = (some bytes, none)) ∧
    writeFile [] = .error Fault.outOfRange ∧
    writeFileOutcome [] = (some [], some Fault.outOfRange) ∧
    (∀ (file : IFStream) (fh : BITMAP_FILE_HEADER) (ih : BITMAP_INFO_HEADER),
      ih.BMP_HEIGHT = 0 →
      (∀ bytes, (getPixelArray file fh ih).bind (fun r => writeFile r.2) ≠ .ok bytes) ∧
      (-(2 ^ 31) ≤ (ih.BMP_BIT_COUNT : Int) * ih.BMP_WIDTH →
        (ih.BMP_BIT_COUNT : Int) * ih.BMP_WIDTH < 2 ^ 31 →
        (getPixelArray file fh ih).map Prod.snd = .ok [] ∧
        (getPixelArray file fh ih).bind (fun r => writeFile r.2) =
          .error Fault.outOfRange ∧
        (getPixelArray file fh ih).map (fun r => writeFileOutcome r.2) =
          .ok (some [], some Fault.outOfRange))) := by
  refine ⟨⟨_, writeFile_rect g W hrect hH hW,
    writeFileOutcome_of_ok _ _ (writeFile_rect g W hrect hH hW)⟩, rfl, rfl, ?_⟩
  intro file fh ih h0
  have key : getPixelArray file fh ih = .error Fault.signedOverflow ∨
      (-(2 ^ 31) ≤ (ih.BMP_BIT_COUNT : Int) * ih.BMP_WIDTH ∧
        (ih.BMP_BIT_COUNT : Int) * ih.BMP_WIDTH < 2 ^ 31 ∧
        getPixelArray file fh ih = .ok (file, [])) := by
    unfold getPixelArray rowSize checkedInt
    by_cases hr : -(2 ^ 31) ≤ (ih.BMP_BIT_COUNT : Int) * ih.BMP_WIDTH ∧
        (ih.BMP_BIT_COUNT : Int) * ih.BMP_WIDTH < 2 ^ 31
    · right
      refine ⟨hr.1, hr.2, ?_⟩
      rw [if_pos hr, h0]
      rfl
    · left
      rw [if_neg hr]
      rfl
  constructor
  · intro bytes
    rcases key with e | ⟨_, _, e⟩
    · rw [e]; exact fun h => by cases h
    · rw [e]; exact fun h => by cases h
  · intro h1 h2
    rcases key with e | ⟨_, _, e⟩
    · exfalso
      rw [getPixelArray, rowSize, checkedInt, if_pos ⟨h1, h2⟩, h0] at e
      cases e
    · rw [e]
      exact ⟨rfl, rfl, rfl⟩

theorem writeFile_row0_witness :
    (∃ bytes, writeFile [[⟨1, 2, 3⟩], [⟨4, 5, 6⟩]] = .ok bytes ∧
      writeFileOutcome [[⟨1, 2, 3⟩], [⟨4, 5, 6⟩]] = (some bytes, none)) ∧
    (getPixelArray { content := List.replicate 54 0 } ⟨0x4D42, 54, 0, 0, 54⟩
        ⟨40, 5, 0, 1, 24, 0, 0, 0, 0, 0, 0⟩).bind (fun r => writeFile r.2) =
      .error Fault.outOfRange ∧
    (getPixelArray { content := List.replicate 54 0 } ⟨0x4D42, 54, 0, 0, 54⟩
        ⟨40, 5, 0, 1, 24, 0, 0, 0, 0, 0, 0⟩).map (fun r => writeFileOutcome r.2) =
      .ok (some [], some Fault.outOfRange) :=
  ⟨(writeFile_row0 [[⟨1, 2, 3⟩], [⟨4, 5, 6⟩]] 1 (by decide) (by decide) (by decide)).1,
   (((writeFile_row0 [[⟨1, 2, 3⟩], [⟨4, 5, 6⟩]] 1 (by decide) (by decide) (by decide)).2.2.2
      { content := List.replicate 54 0 } ⟨0x4D42, 54, 0, 0, 54⟩
      ⟨40, 5, 0, 1, 24, 0, 0, 0, 0, 0, 0⟩ rfl).2 (by decide) (by decide)).2⟩

end BMP
